import Mathlib

/-!
# Verification of the tuple_fdw block tuple storage engine

Shallow embedding of `src/storage.c` and the option-validation part of
`src/tuple_fdw.c` from the tuple_fdw repository, together with proofs about
the embedded definitions.

Modelling conventions:

* Machine memory (the in-memory 1 MiB block buffer `Block.data`) is a total
  function `Nat → Nat`; every byte the C program actually stores is `< 256`.
  The backing file is a `List Nat` of bytes.
* `Size` fields are 8 little-endian bytes, `int32_t`/`pg_crc32c` fields are
  4 little-endian bytes, matching the x86-64 layout the program assumes
  (`MAXIMUM_ALIGNOF = 8`, `sizeof(Size) = 8`,
  `StorageTupleHeaderSize = offsetof(StorageTupleHeader, data) = 8`,
  `StorageBlockHeaderSize = 8`, `sizeof(StorageFileHeader) = 8`).
* `elog(ERROR, ...)` aborts the statement; it is modelled as `Except.error`
  carrying the error kind together with the `StorageState` at the moment of
  the abort (so "the file is left unchanged" is expressible).
* A dereference of the block buffer beyond its `BLOCK_SIZE` bytes is
  undefined behaviour in the C program; it is modelled as the distinct
  error `StorageError.oobRead`.
* LZ4 (`LZ4_compress_fast` / `LZ4_decompress_safe`) is an external library,
  not part of this repository; it is modelled as a `Codec` parameter whose
  fields carry the library's documented contract (decompression inverts
  compression, a successful compression output is nonempty and fits in an
  `int32_t`). The checksum `pg_crc32c` is the standard CRC-32C (Castagnoli)
  computed bit by bit, which is what PostgreSQL's implementations compute.
* `mmap` with length 0 fails with `EINVAL` (POSIX); `mmap_file` therefore
  fails on an empty backing file, which the model reflects.
-/

/-- BLOCK_SIZE from `storage.h`: 1 MiB uncompressed block capacity. -/
def BLOCK_SIZE : Nat := 1024 * 1024

/-- StorageTupleHeaderSize = offsetof(StorageTupleHeader, data): a single
    `Size length` field, 8 bytes. -/
def StorageTupleHeaderSize : Nat := 8

/-- StorageBlockHeaderSize = offsetof(StorageBlockHeader, data):
    `int32_t compressed_size` + `pg_crc32c checksum`, 8 bytes. -/
def StorageBlockHeaderSize : Nat := 8

/-- sizeof(StorageFileHeader): a single `Size last_block_offset` field. -/
def StorageFileHeaderSize : Nat := 8

/-- PostgreSQL MAXALIGN: round up to a multiple of MAXIMUM_ALIGNOF = 8. -/
def MAXALIGN (x : Nat) : Nat := ((x + 7) / 8) * 8

/-! ## Bytes, memory and little-endian encodings -/

/-- A byte-addressed memory region (the in-memory block buffer). -/
abbrev Mem := Nat → Nat

/-- All-zero memory, as produced by `memset(block->data, 0, BLOCK_SIZE)`
    and by `palloc0`. -/
def memZero : Mem := fun _ => 0

/-- Memory whose first bytes are the given list and whose remaining bytes
    are zero. -/
def memOfList (l : List Nat) : Mem := fun i => l.getD i 0

/-- memcpy of a byte list into memory at a given offset. -/
def writeBytes (m : Mem) (off : Nat) (bs : List Nat) : Mem :=
  fun i => if off ≤ i ∧ i < off + bs.length then bs.getD (i - off) 0 else m i

/-- Read `n` consecutive bytes of memory starting at `off`. -/
def readBytes (m : Mem) (off n : Nat) : List Nat :=
  (List.range n).map (fun i => m (off + i))

/-- Little-endian encoding of `x` on `n` bytes (memcpy of an n-byte
    integer field on a little-endian machine). -/
def natToLE : Nat → Nat → List Nat
  | 0, _ => []
  | n + 1, x => x % 256 :: natToLE n (x / 256)

/-- Value of a little-endian byte list. -/
def leToNat : List Nat → Nat
  | [] => 0
  | b :: bs => b + 256 * leToNat bs

/-- Read `n` bytes of a byte list at `off`, zero-extending past the end
    (used for the memory-mapped view, where a short read past the data is
    not observable in the verified executions). -/
def bytesD (l : List Nat) (off n : Nat) : List Nat :=
  (List.range n).map (fun i => l.getD (off + i) 0)

/-- fseek + fwrite at `off`: overwrite in place, zero-filling any gap and
    extending the file as needed. -/
def writeAt (d : List Nat) (off : Nat) (bs : List Nat) : List Nat :=
  (d.take off ++ List.replicate (off - d.length) 0) ++ bs ++ d.drop (off + bs.length)

/-- fseek + fread of exactly `n` bytes at `off`; `none` models a short read
    (the C code treats any short read as failure). -/
def freadBytes (d : List Nat) (off n : Nat) : Option (List Nat) :=
  if off + n ≤ d.length then some ((d.drop off).take n) else none

/-! ## CRC-32C (Castagnoli), as computed by PostgreSQL's pg_crc32c -/

/-- Reflected CRC-32C polynomial. -/
def CRC32C_POLY : Nat := 0x82F63B78

/-- One bit step of the reflected CRC-32C computation. -/
def crcStep1 (c : Nat) : Nat :=
  (c >>> 1) ^^^ (if c % 2 = 1 then CRC32C_POLY else 0)

/-- Eight bit steps: process one byte worth of shifting. -/
def crcStep8 (c : Nat) : Nat :=
  crcStep1 (crcStep1 (crcStep1 (crcStep1 (crcStep1 (crcStep1 (crcStep1 (crcStep1 c)))))))

/-- COMP_CRC32C for a single byte: xor the byte in, then shift eight times. -/
def crcUpdate (c b : Nat) : Nat := crcStep8 (c ^^^ (b % 256))

/-- CRC-32C of a byte string: INIT_CRC32C (0xFFFFFFFF), fold the bytes,
    FIN_CRC32C (xor 0xFFFFFFFF). -/
def crc32c (bs : List Nat) : Nat :=
  (bs.foldl crcUpdate 0xFFFFFFFF) ^^^ 0xFFFFFFFF

/-! ## The compression codec

LZ4 is linked externally and is not code of this repository.  `Codec`
abstracts `LZ4_compress_fast` (with the handle's acceleration parameter
baked in) and `LZ4_decompress_safe`, carrying the library's documented
contract as propositional fields. -/

structure Codec where
  comp : List Nat → List Nat
  decomp : List Nat → Option (List Nat)
  comp_pos : ∀ b, b.length = BLOCK_SIZE → 0 < (comp b).length
  comp_lt : ∀ b, b.length = BLOCK_SIZE → (comp b).length < 2 ^ 31
  round : ∀ b, b.length = BLOCK_SIZE → decomp (comp b) = some b

/-! ## Storage state -/

/-- BlockStatus from `storage.h`. -/
inductive BlockStatus
  | BS_INVALID
  | BS_NEW
  | BS_LOADED
  | BS_MODIFIED
deriving DecidableEq, Repr

/-- Block from `storage.h`: the single in-memory block buffer. -/
structure Block where
  status : BlockStatus
  offset : Nat
  compressed_size : Nat
  data : Mem

/-- StorageState from `storage.h`.  `mmaped` is the read-only mapping of the
    whole file (`mmaped_file` / `mmaped_size`), `last_block_offset` is the
    single field of the in-memory `StorageFileHeader`. -/
structure StorageState where
  file : List Nat
  readonly : Bool
  mmaped : Option (List Nat)
  last_block_offset : Nat
  cur_block : Block
  cur_offset : Nat

/-- Error kinds raised through `elog(ERROR, ...)` / `ereport(ERROR, ...)`,
    plus `oobRead` for an out-of-bounds dereference of the block buffer
    (undefined behaviour in the C program). -/
inductive StorageError
  | mmapFailed
  | wrongChecksum
  | decompressionFailed
  | compressionFailed
  | maxTupleSize
  | oobRead
deriving DecidableEq, Repr

/-- Result type of a storage operation: an `elog(ERROR)` abort carries the
    state (in particular the file contents) at the moment of the abort. -/
abbrev SRes (α : Type) := Except (StorageError × StorageState) α

/-! ## Storage operations, translated from `src/storage.c` -/

/-- write_storage_file_header: seek to 0 and write the 8-byte header. -/
def write_storage_file_header (s : StorageState) : StorageState :=
  { s with file := writeAt s.file 0 (natToLE 8 s.last_block_offset) }

/-- read_storage_file_header: from the mapping if present, otherwise from the
    file; a zero-byte read means a brand new file, whose header is
    initialized in memory and, unless read-only, persisted. -/
def read_storage_file_header (s : StorageState) : StorageState :=
  match s.mmaped with
  | some m => { s with last_block_offset := leToNat (bytesD m 0 8) }
  | none =>
    if s.file.length = 0 then
      let s := { s with last_block_offset := StorageFileHeaderSize }
      if s.readonly then s else write_storage_file_header s
    else
      { s with last_block_offset := leToNat (bytesD s.file 0 8) }

/-- read_block: read the block header and compressed payload at `offset`
    (from the mapping or via buffered I/O), verify the CRC-32C over exactly
    `compressed_size` payload bytes, decompress into the block buffer.
    Returns `false` when the block cannot be read (end of data). -/
def read_block (c : Codec) (s : StorageState) (offset : Nat) :
    SRes (Bool × StorageState) :=
  let hp : Option (Nat × Nat × List Nat) :=
    match s.mmaped with
    | some m =>
      if m.length ≤ offset then none
      else
        some (leToNat (bytesD m offset 4), leToNat (bytesD m (offset + 4) 4),
          bytesD m (offset + StorageBlockHeaderSize) (leToNat (bytesD m offset 4)))
    | none =>
      match freadBytes s.file offset StorageBlockHeaderSize with
      | none => none
      | some hdr =>
        match freadBytes s.file (offset + StorageBlockHeaderSize) (leToNat (hdr.take 4)) with
        | none => none
        | some payload => some (leToNat (hdr.take 4), leToNat (hdr.drop 4), payload)
  match hp with
  | none => .ok (false, s)
  | some (csize, stored, payload) =>
    if crc32c payload ≠ stored then .error (.wrongChecksum, s)
    else
      match c.decomp payload with
      | none => .error (.decompressionFailed, s)
      | some l =>
        .ok (true, { s with
          cur_block := ⟨.BS_LOADED, offset, csize, writeBytes s.cur_block.data 0 l⟩,
          cur_offset := 0 })

/-- load_next_block: the first block sits right after the file header;
    otherwise the next block follows the current one's on-disk footprint. -/
def load_next_block (c : Codec) (s : StorageState) : SRes (Bool × StorageState) :=
  let offset :=
    if s.cur_block.status = .BS_INVALID then StorageFileHeaderSize
    else s.cur_block.offset + StorageBlockHeaderSize + s.cur_block.compressed_size
  read_block c s offset

/-- allocate_new_block: place the new block after the current one (or right
    after the file header if there is none yet), zero the buffer, mark the
    block `BS_NEW`, reset the cursor. -/
def allocate_new_block (s : StorageState) : StorageState :=
  let off :=
    if s.cur_block.offset ≠ 0 then
      s.cur_block.offset + StorageBlockHeaderSize + s.cur_block.compressed_size
    else StorageFileHeaderSize
  { s with cur_block := ⟨.BS_NEW, off, s.cur_block.compressed_size, memZero⟩,
           cur_offset := 0 }

/-- load_last_block: read the block the file header points at, or allocate a
    fresh block when that read fails. -/
def load_last_block (c : Codec) (s : StorageState) : SRes StorageState := do
  let (b, s') ← read_block c s s.last_block_offset
  if b then pure s' else pure (allocate_new_block s')

/-- find_last_tuple_offset: scan the tuple records of the current block for
    the first zero length header (or the block boundary). -/
def find_last_tuple_offset (m : Mem) (off : Nat) : Nat :=
  if _h : off < BLOCK_SIZE then
    let len := leToNat (readBytes m off StorageTupleHeaderSize)
    if len = 0 then off
    else find_last_tuple_offset m (off + len + StorageTupleHeaderSize)
  else off
termination_by BLOCK_SIZE - off
decreasing_by omega

/-- flush_last_block: a `BS_LOADED` block is not rewritten; otherwise the
    block is compressed, checksummed and written at its offset, and for a
    `BS_NEW` block the file header is pointed at it, persisted, and the
    block becomes `BS_LOADED`. -/
def flush_last_block (c : Codec) (s : StorageState) : SRes StorageState :=
  if s.cur_block.status = .BS_LOADED then .ok s
  else
    let payload := c.comp (readBytes s.cur_block.data 0 BLOCK_SIZE)
    if payload.length = 0 then .error (.compressionFailed, s)
    else
      let s' := { s with
        file := writeAt s.file s.cur_block.offset
          (natToLE 4 payload.length ++ natToLE 4 (crc32c payload) ++ payload),
        cur_block := { s.cur_block with compressed_size := payload.length } }
      if s'.cur_block.status = .BS_NEW then
        .ok (write_storage_file_header
          { s' with
            last_block_offset := s'.cur_block.offset,
            cur_block := { s'.cur_block with status := .BS_LOADED } })
      else .ok s'

/-- StorageInit, specialised to an already-opened file whose bytes are `d`
    (`AllocateFile` succeeded); `use_mmap` maps the whole file read-only, and
    `mmap` fails with EINVAL on a zero-length file (POSIX).  The caller
    allocates the state with `palloc0`, hence the zeroed initial block. -/
def StorageInit (d : List Nat) (readonly use_mmap : Bool) : SRes StorageState :=
  let s0 : StorageState :=
    { file := d, readonly := readonly, mmaped := none, last_block_offset := 0,
      cur_block := ⟨.BS_INVALID, 0, 0, memZero⟩, cur_offset := 0 }
  if use_mmap then
    if d.length = 0 then .error (.mmapFailed, s0)
    else .ok (read_storage_file_header { s0 with mmaped := some d })
  else .ok (read_storage_file_header s0)

/-- StorageInsertTuple for a tuple whose `t_len` bytes are `t`.  Oversized
    tuples are rejected before anything is touched; on the first insert the
    last block is loaded (or a fresh one allocated) and the free offset
    found; a tuple that does not fit triggers flush + new block; then the
    8-byte length header `MAXALIGN(t_len)` and the `t_len` payload bytes are
    copied in and the cursor advances by `MAXALIGN(t_len + 8)`. -/
def StorageInsertTuple (c : Codec) (s : StorageState) (t : List Nat) :
    SRes StorageState := do
  let tuple_length := MAXALIGN (t.length + StorageTupleHeaderSize)
  if BLOCK_SIZE < tuple_length then .error (.maxTupleSize, s)
  else do
    let s ← do
      if s.cur_block.status = .BS_INVALID then do
        let s' ← load_last_block c s
        pure { s' with cur_offset := find_last_tuple_offset s'.cur_block.data 0 }
      else pure s
    let s ← do
      if BLOCK_SIZE < s.cur_offset + tuple_length then do
        let s' ← flush_last_block c s
        pure (allocate_new_block s')
      else pure s
    let data :=
      writeBytes
        (writeBytes s.cur_block.data s.cur_offset (natToLE 8 (MAXALIGN t.length)))
        (s.cur_offset + StorageTupleHeaderSize) t
    let st : BlockStatus :=
      if s.cur_block.status ≠ .BS_NEW then .BS_MODIFIED else .BS_NEW
    pure { s with cur_block := { s.cur_block with data := data, status := st },
                  cur_offset := s.cur_offset + tuple_length }

/-- GetCurrentTuple's length-field dereference at offset `off` of the block
    buffer.  A read that crosses the end of the `BLOCK_SIZE`-byte array is
    undefined behaviour, modelled as the `oobRead` fault. -/
def readTupleHeaderAt (s : StorageState) (off : Nat) : SRes Nat :=
  if off + StorageTupleHeaderSize ≤ BLOCK_SIZE then
    .ok (leToNat (readBytes s.cur_block.data off StorageTupleHeaderSize))
  else .error (.oobRead, s)

/-- Shared tail of StorageReadTuple: return the tuple at the cursor (whose
    length header `len` has already been read) and advance the cursor. -/
def readTupleFinish (s : StorageState) (len : Nat) :
    Option (List Nat) × StorageState :=
  (some (readBytes s.cur_block.data (s.cur_offset + StorageTupleHeaderSize) len),
   { s with cur_offset := s.cur_offset + len + StorageTupleHeaderSize })

/-- The reload path of StorageReadTuple: try to load the next block; a failed
    load, or a freshly loaded block whose first record has zero length,
    signals end of data (`none`). -/
def readTupleLoad (c : Codec) (s : StorageState) :
    SRes (Option (List Nat) × StorageState) := do
  let (b, s') ← load_next_block c s
  if b then do
    let len1 ← readTupleHeaderAt s' 0
    if len1 = 0 then pure (none, s')
    else pure (readTupleFinish s' len1)
  else pure (none, s')

/-- StorageReadTuple: if no block is loaded, or the cursor ran past the
    block capacity (`cur_offset > BLOCK_SIZE`, per the code), or the record
    at the cursor has zero length, load the next block; otherwise return the
    record at the cursor.  The length-field dereference this performs is
    `readTupleHeaderAt`. -/
def StorageReadTuple (c : Codec) (s : StorageState) :
    SRes (Option (List Nat) × StorageState) := do
  if s.cur_block.status = .BS_INVALID ∨ BLOCK_SIZE < s.cur_offset then
    readTupleLoad c s
  else do
    let len0 ← readTupleHeaderAt s s.cur_offset
    if len0 = 0 then readTupleLoad c s
    else pure (readTupleFinish s len0)

/-- StorageRelease: flush a pending `BS_NEW`/`BS_MODIFIED` block, then close
    the file (the returned state's `file` is the final on-disk content). -/
def StorageRelease (c : Codec) (s : StorageState) : SRes StorageState :=
  if s.cur_block.status = .BS_NEW ∨ s.cur_block.status = .BS_MODIFIED then
    flush_last_block c s
  else .ok s

/-! ## Iterated operations (as driven by the FDW executor callbacks) -/

/-- Insert a sequence of tuples, one `StorageInsertTuple` per row, as
    `tupleExecForeignInsert` does. -/
def insertTuples (c : Codec) : StorageState → List (List Nat) → SRes StorageState
  | s, [] => .ok s
  | s, t :: ts => do
    let s' ← StorageInsertTuple c s t
    insertTuples c s' ts

/-- Read up to `n` tuples, stopping at the first end-of-data signal, as
    `tupleIterateForeignScan` does. -/
def readTuples (c : Codec) : StorageState → Nat → SRes (List (List Nat) × StorageState)
  | s, 0 => .ok ([], s)
  | s, n + 1 => do
    let (t?, s') ← StorageReadTuple c s
    match t? with
    | none => .ok ([], s')
    | some t => do
      let (ts, s'') ← readTuples c s' n
      .ok (t :: ts, s'')

/-- One full write session on a fresh empty file: init, insert all rows,
    release (as the modify path of the FDW does). -/
def writeFile (c : Codec) (ts : List (List Nat)) : SRes StorageState := do
  let s0 ← StorageInit [] false false
  let s1 ← insertTuples c s0 ts
  StorageRelease c s1

/-- A full write session on a fresh empty file followed by a buffered read
    session on the resulting file from a fresh read-only handle. -/
def writeThenRead (c : Codec) (ts : List (List Nat)) (n : Nat) :
    SRes (List (List Nat) × StorageState) := do
  let s2 ← writeFile c ts
  let r0 ← StorageInit s2.file true false
  readTuples c r0 n

/-- A read-only scan session over file contents `d`. -/
def scanRows (c : Codec) (d : List Nat) (use_mmap : Bool) (n : Nat) :
    Except StorageError (List (List Nat)) :=
  match StorageInit d true use_mmap with
  | .error e => .error e.1
  | .ok s =>
    match readTuples c s n with
    | .error e => .error e.1
    | .ok r => .ok r.1

/-- Error kind of a storage computation, if any. -/
def errOf {α : Type} : SRes α → Option StorageError
  | .error e => some e.1
  | .ok _ => none

/-- Row list of a read computation, if it succeeded. -/
def rowsOf : SRes (List (List Nat) × StorageState) → Option (List (List Nat))
  | .error _ => none
  | .ok r => some r.1

/-! ## Spec-side descriptions of the data the engine writes -/

/-- On-disk/in-block size of one inserted tuple:
    `MAXALIGN(t_len + StorageTupleHeaderSize)`, the cursor advance. -/
def tlen (t : List Nat) : Nat := MAXALIGN (t.length + StorageTupleHeaderSize)

/-- Encoding of one tuple record inside a block: the 8-byte length header
    `MAXALIGN(t_len)`, the payload, and the alignment padding bytes (zero in
    a freshly zeroed block). -/
def encodeTuple (t : List Nat) : List Nat :=
  natToLE 8 (MAXALIGN t.length) ++ t ++ List.replicate (MAXALIGN t.length - t.length) 0

/-- Encoding of a sequence of tuple records. -/
def encodeTuples (ts : List (List Nat)) : List Nat := (ts.map encodeTuple).flatten

/-- Total in-block size of a sequence of tuples. -/
def encLen (ts : List (List Nat)) : Nat := (ts.map tlen).sum

/-- Content of the full `BLOCK_SIZE` block buffer holding the records `ts`
    followed by zero padding. -/
def blockList (ts : List (List Nat)) : List Nat :=
  encodeTuples ts ++ List.replicate (BLOCK_SIZE - (encodeTuples ts).length) 0

/-- On-disk bytes of one flushed block holding the records `ts`:
    block header (compressed size, CRC-32C of the compressed bytes)
    followed by the compressed payload. -/
def diskBlockOf (c : Codec) (ts : List (List Nat)) : List Nat :=
  natToLE 4 (c.comp (blockList ts)).length ++
    natToLE 4 (crc32c (c.comp (blockList ts))) ++ c.comp (blockList ts)

/-- On-disk bytes of a sequence of flushed blocks. -/
def chainOf (c : Codec) (bs : List (List (List Nat))) : List Nat :=
  (bs.map (diskBlockOf c)).flatten

/-- Offset recorded in the file header once `bs` are the flushed blocks:
    the offset of the last block of `bs` (or of the first block to come,
    when no block has been flushed yet). -/
def lboOf (c : Codec) (bs : List (List (List Nat))) : Nat :=
  StorageFileHeaderSize + (chainOf c bs.dropLast).length

/-- The row a reader hands back for an inserted row `t`: the stored length
    is `MAXALIGN t.length`, so the payload comes back zero-padded. -/
def padRow (t : List Nat) : List Nat :=
  t ++ List.replicate (MAXALIGN t.length - t.length) 0

/-- Greedy packing of rows into blocks, mirroring the insert path's
    "does the tuple fit the current block?" test: `packGo cur ts` returns
    the blocks flushed while inserting `ts` after the rows `cur` already in
    the current block, together with the final unflushed block. -/
def packGo (cur : List (List Nat)) :
    List (List Nat) → List (List (List Nat)) × List (List Nat)
  | [] => ([], cur)
  | t :: ts =>
    if BLOCK_SIZE < encLen cur + tlen t then
      let r := packGo [t] ts
      (cur :: r.1, r.2)
    else packGo (cur ++ [t]) ts

/-- Blocks produced by inserting `ts` from a fresh file: the flushed blocks
    followed by the final unflushed block. -/
def packAll (ts : List (List Nat)) : List (List (List Nat)) :=
  match ts with
  | [] => []
  | t :: ts => let r := packGo [t] ts; r.1 ++ [r.2]

/-! ## Little-endian encoding lemmas -/

theorem length_natToLE (n x : Nat) : (natToLE n x).length = n := by
  induction n generalizing x with
  | zero => rfl
  | succ n ih => simp [natToLE, ih]

theorem leToNat_natToLE {n x : Nat} (h : x < 256 ^ n) :
    leToNat (natToLE n x) = x := by
  induction n generalizing x with
  | zero => simp at h; simp [h, natToLE, leToNat]
  | succ n ih =>
    have hdiv : x / 256 < 256 ^ n := by
      rw [Nat.div_lt_iff_lt_mul (by norm_num)]
      calc x < 256 ^ (n + 1) := h
        _ = 256 ^ n * 256 := by rw [Nat.pow_succ]
    simp only [natToLE, leToNat, ih hdiv]
    omega

theorem natToLE_zero (n : Nat) : natToLE n 0 = List.replicate n 0 := by
  induction n with
  | zero => rfl
  | succ n ih => simp [natToLE, ih, List.replicate_succ]

theorem leToNat_replicate_zero (n : Nat) : leToNat (List.replicate n 0) = 0 := by
  induction n with
  | zero => rfl
  | succ n ih => simp [List.replicate_succ, leToNat, ih]

/-! ## Arithmetic lemmas -/

theorem BLOCK_SIZE_eq : BLOCK_SIZE = 1048576 := rfl

theorem StorageTupleHeaderSize_eq : StorageTupleHeaderSize = 8 := rfl

theorem StorageBlockHeaderSize_eq : StorageBlockHeaderSize = 8 := rfl

theorem StorageFileHeaderSize_eq : StorageFileHeaderSize = 8 := rfl

theorem le_MAXALIGN (x : Nat) : x ≤ MAXALIGN x := by
  unfold MAXALIGN; omega

theorem MAXALIGN_lt_add_8 (x : Nat) : MAXALIGN x < x + 8 := by
  unfold MAXALIGN; omega

theorem MAXALIGN_add_8 (x : Nat) : MAXALIGN (x + 8) = MAXALIGN x + 8 := by
  unfold MAXALIGN; omega

theorem MAXALIGN_pos {x : Nat} (h : 0 < x) : 0 < MAXALIGN x := by
  unfold MAXALIGN; omega

theorem tlen_eq (t : List Nat) : tlen t = MAXALIGN t.length + 8 := by
  unfold tlen StorageTupleHeaderSize; exact MAXALIGN_add_8 t.length

theorem tlen_pos (t : List Nat) : 0 < tlen t := by
  rw [tlen_eq]; omega

theorem length_encodeTuple (t : List Nat) : (encodeTuple t).length = tlen t := by
  have := le_MAXALIGN t.length
  simp only [encodeTuple, List.length_append, length_natToLE, List.length_replicate,
    tlen_eq]
  omega

theorem encodeTuples_nil : encodeTuples [] = [] := rfl

theorem encodeTuples_cons (t : List Nat) (ts : List (List Nat)) :
    encodeTuples (t :: ts) = encodeTuple t ++ encodeTuples ts := by
  simp [encodeTuples]

theorem encodeTuples_append (a b : List (List Nat)) :
    encodeTuples (a ++ b) = encodeTuples a ++ encodeTuples b := by
  simp [encodeTuples]

theorem encLen_nil : encLen [] = 0 := rfl

theorem encLen_cons (t : List Nat) (ts : List (List Nat)) :
    encLen (t :: ts) = tlen t + encLen ts := by
  simp [encLen]

theorem encLen_append (a b : List (List Nat)) :
    encLen (a ++ b) = encLen a + encLen b := by
  simp [encLen]

theorem length_encodeTuples (ts : List (List Nat)) :
    (encodeTuples ts).length = encLen ts := by
  induction ts with
  | nil => rfl
  | cons t ts ih =>
    rw [encodeTuples_cons, encLen_cons, List.length_append, ih, length_encodeTuple]

theorem length_blockList {ts : List (List Nat)} (h : encLen ts ≤ BLOCK_SIZE) :
    (blockList ts).length = BLOCK_SIZE := by
  simp [blockList, length_encodeTuples]
  omega

/-! ## Memory lemmas -/

theorem writeBytes_nil (m : Mem) (off : Nat) : writeBytes m off [] = m := by
  funext i; simp [writeBytes]

theorem memZero_eq_memOfList_nil : memZero = memOfList [] := by
  funext i; simp [memZero, memOfList]

theorem length_readBytes (m : Mem) (off n : Nat) : (readBytes m off n).length = n := by
  simp [readBytes]

theorem readBytes_zero (m : Mem) (off : Nat) : readBytes m off 0 = [] := rfl

theorem getElem_readBytes (m : Mem) (off n i : Nat)
    (h' : i < (readBytes m off n).length) :
    (readBytes m off n)[i] = m (off + i) := by
  simp [readBytes]

theorem readBytes_add (m : Mem) (off a b : Nat) :
    readBytes m off (a + b) = readBytes m off a ++ readBytes m (off + a) b := by
  simp only [readBytes, List.range_add, List.map_append, List.map_map]
  congr 1
  apply List.map_congr_left
  intro i _
  simp [Nat.add_comm, Nat.add_assoc, Nat.add_left_comm]

theorem writeBytes_writeBytes_append (m : Mem) (off : Nat) (a b : List Nat) :
    writeBytes (writeBytes m off a) (off + a.length) b = writeBytes m off (a ++ b) := by
  funext i
  simp only [writeBytes, List.length_append]
  by_cases h1 : off + a.length ≤ i ∧ i < off + a.length + b.length
  · rw [if_pos h1, if_pos (by omega)]
    rw [List.getD_append_right a b 0 (i - off) (by omega)]
    congr 1
    omega
  · rw [if_neg h1]
    by_cases h2 : off ≤ i ∧ i < off + a.length
    · rw [if_pos h2, if_pos (by omega)]
      rw [List.getD_append a b 0 (i - off) (by omega)]
    · rw [if_neg h2, if_neg (by omega)]

theorem writeBytes_memOfList_append (l l2 : List Nat) :
    writeBytes (memOfList l) l.length l2 = memOfList (l ++ l2) := by
  funext i
  simp only [writeBytes, memOfList]
  by_cases h1 : l.length ≤ i ∧ i < l.length + l2.length
  · rw [if_pos h1, List.getD_append_right l l2 0 i (by omega)]
  · rw [if_neg h1]
    by_cases h2 : i < l.length
    · rw [List.getD_append l l2 0 i h2]
    · rw [List.getD_eq_default _ _ (by omega), List.getD_eq_default _ _ (by simp; omega)]

theorem memOfList_append_replicate_zero (l : List Nat) (k : Nat) :
    memOfList (l ++ List.replicate k 0) = memOfList l := by
  funext i
  simp only [memOfList]
  by_cases h1 : i < l.length
  · rw [List.getD_append l _ 0 i h1]
  · rw [List.getD_eq_default l _ (by omega)]
    by_cases h2 : i < l.length + k
    · rw [List.getD_append_right l _ 0 i (by omega),
        List.getD_eq_getElem _ _ (by simp; omega), List.getElem_replicate]
    · rw [List.getD_eq_default _ _ (by simp; omega)]

theorem readBytes_memOfList {l : List Nat} {off n : Nat} (h : off + n ≤ l.length) :
    readBytes (memOfList l) off n = (l.drop off).take n := by
  apply List.ext_getElem
  · simp only [length_readBytes, List.length_take, List.length_drop]; omega
  · intro i h1 h2
    rw [getElem_readBytes]
    rw [List.getElem_take, List.getElem_drop]
    simp only [memOfList]
    have hi : i < n := by simpa [length_readBytes] using h1
    rw [List.getD_eq_getElem _ _ (by omega)]

theorem readBytes_memOfList_past {l : List Nat} {off : Nat} (n : Nat)
    (h : l.length ≤ off) :
    readBytes (memOfList l) off n = List.replicate n 0 := by
  apply List.ext_getElem
  · simp [length_readBytes]
  · intro i h1 h2
    rw [getElem_readBytes, List.getElem_replicate]
    simp only [memOfList]
    rw [List.getD_eq_default _ _ (by omega)]

theorem readBytes_memOfList_full {l : List Nat} {n : Nat} (h : l.length ≤ n) :
    readBytes (memOfList l) 0 n = l ++ List.replicate (n - l.length) 0 := by
  have hsplit : n = l.length + (n - l.length) := by omega
  conv_lhs => rw [hsplit]
  rw [readBytes_add]
  congr 1
  · rw [readBytes_memOfList (by omega)]
    simp
  · rw [readBytes_memOfList_past _ (by omega)]

/-! ## File primitive lemmas -/

theorem writeAt_append (d bs : List Nat) : writeAt d d.length bs = d ++ bs := by
  simp [writeAt]

theorem writeAt_prefix (a b l : List Nat) (h : l.length = a.length) :
    writeAt (a ++ b) 0 l = l ++ b := by
  simp [writeAt, ← h, List.drop_left]

theorem freadBytes_of_le {d : List Nat} {off n : Nat} (h : off + n ≤ d.length) :
    freadBytes d off n = some ((d.drop off).take n) := by
  simp [freadBytes, h]

theorem freadBytes_none {d : List Nat} {off n : Nat} (h : d.length < off + n) :
    freadBytes d off n = none := by
  simp [freadBytes]; omega

/-! ## CRC-32C lemmas: a single corrupted byte always changes the checksum -/

theorem shiftRight_xor_distrib (a b k : Nat) :
    (a ^^^ b) >>> k = (a >>> k) ^^^ (b >>> k) := by
  apply Nat.eq_of_testBit_eq
  intro i
  simp [Nat.testBit_shiftRight, Nat.testBit_xor]

theorem crcStep1_lt {c : Nat} (h : c < 2 ^ 32) : crcStep1 c < 2 ^ 32 := by
  unfold crcStep1
  apply Nat.xor_lt_two_pow
  · have : c >>> 1 = c / 2 := by
      rw [Nat.shiftRight_eq_div_pow, Nat.pow_one]
    omega
  · split <;> norm_num [CRC32C_POLY]

theorem crcStep1_shiftRight_31 {c : Nat} (h : c < 2 ^ 32) :
    crcStep1 c >>> 31 = c % 2 := by
  have h32 : c >>> 1 >>> 31 = 0 := by
    rw [← Nat.shiftRight_add, Nat.shiftRight_eq_div_pow]
    have : c / 2 ^ 32 = 0 := Nat.div_eq_of_lt h
    omega
  unfold crcStep1
  rcases Nat.mod_two_eq_zero_or_one c with h2 | h2 <;> rw [h2]
  · simpa using h32
  · simp only [if_pos rfl, shiftRight_xor_distrib, h32]
    decide

theorem crcStep1_recover (c : Nat) :
    crcStep1 c ^^^ ((c % 2) * CRC32C_POLY) = c >>> 1 := by
  unfold crcStep1
  rcases Nat.mod_two_eq_zero_or_one c with h2 | h2 <;>
    simp [h2, Nat.xor_assoc]

theorem crcStep1_inj {a b : Nat} (ha : a < 2 ^ 32) (hb : b < 2 ^ 32)
    (h : crcStep1 a = crcStep1 b) : a = b := by
  have hm : a % 2 = b % 2 := by
    rw [← crcStep1_shiftRight_31 ha, ← crcStep1_shiftRight_31 hb, h]
  have hd : a >>> 1 = b >>> 1 := by
    rw [← crcStep1_recover a, ← crcStep1_recover b, h, hm]
  have hd2 : a / 2 = b / 2 := by
    simpa [Nat.shiftRight_eq_div_pow] using hd
  omega

theorem crcStep8_lt {c : Nat} (h : c < 2 ^ 32) : crcStep8 c < 2 ^ 32 :=
  crcStep1_lt (crcStep1_lt (crcStep1_lt (crcStep1_lt
    (crcStep1_lt (crcStep1_lt (crcStep1_lt (crcStep1_lt h)))))))

theorem crcStep8_inj {a b : Nat} (ha : a < 2 ^ 32) (hb : b < 2 ^ 32)
    (h : crcStep8 a = crcStep8 b) : a = b := by
  unfold crcStep8 at h
  have a1 := crcStep1_lt ha
  have a2 := crcStep1_lt a1
  have a3 := crcStep1_lt a2
  have a4 := crcStep1_lt a3
  have a5 := crcStep1_lt a4
  have a6 := crcStep1_lt a5
  have a7 := crcStep1_lt a6
  have b1 := crcStep1_lt hb
  have b2 := crcStep1_lt b1
  have b3 := crcStep1_lt b2
  have b4 := crcStep1_lt b3
  have b5 := crcStep1_lt b4
  have b6 := crcStep1_lt b5
  have b7 := crcStep1_lt b6
  exact crcStep1_inj ha hb (crcStep1_inj a1 b1 (crcStep1_inj a2 b2
    (crcStep1_inj a3 b3 (crcStep1_inj a4 b4 (crcStep1_inj a5 b5
      (crcStep1_inj a6 b6 (crcStep1_inj a7 b7 h)))))))

theorem xor_left_cancel {c a b : Nat} (h : c ^^^ a = c ^^^ b) : a = b := by
  have := congrArg (fun x => c ^^^ x) h
  simpa [← Nat.xor_assoc, Nat.xor_self] using this

theorem xor_right_cancel {c a b : Nat} (h : a ^^^ c = b ^^^ c) : a = b := by
  have := congrArg (fun x => x ^^^ c) h
  simpa [Nat.xor_assoc, Nat.xor_self] using this

theorem crcUpdate_lt {c : Nat} (b : Nat) (h : c < 2 ^ 32) : crcUpdate c b < 2 ^ 32 := by
  apply crcStep8_lt
  apply Nat.xor_lt_two_pow h
  have : b % 256 < 256 := Nat.mod_lt _ (by norm_num)
  omega

theorem crcUpdate_inj {c1 c2 : Nat} (b : Nat) (h1 : c1 < 2 ^ 32) (h2 : c2 < 2 ^ 32)
    (h : crcUpdate c1 b = crcUpdate c2 b) : c1 = c2 := by
  have hb : b % 256 < 2 ^ 32 := by
    have : b % 256 < 256 := Nat.mod_lt _ (by norm_num)
    omega
  have := crcStep8_inj (Nat.xor_lt_two_pow h1 hb) (Nat.xor_lt_two_pow h2 hb) h
  exact xor_right_cancel this

theorem foldl_crcUpdate_lt (bs : List Nat) {c : Nat} (h : c < 2 ^ 32) :
    bs.foldl crcUpdate c < 2 ^ 32 := by
  induction bs generalizing c with
  | nil => simpa using h
  | cons b bs ih => simpa using ih (crcUpdate_lt b h)

theorem foldl_crcUpdate_inj (bs : List Nat) {c1 c2 : Nat}
    (h1 : c1 < 2 ^ 32) (h2 : c2 < 2 ^ 32)
    (h : bs.foldl crcUpdate c1 = bs.foldl crcUpdate c2) : c1 = c2 := by
  induction bs generalizing c1 c2 with
  | nil => simpa using h
  | cons b bs ih =>
    simp only [List.foldl_cons] at h
    exact crcUpdate_inj b h1 h2 (ih (crcUpdate_lt b h1) (crcUpdate_lt b h2) h)

theorem crc32c_ne_of_byte_ne (u v : List Nat) {x y : Nat}
    (hx : x < 256) (hy : y < 256) (hne : x ≠ y) :
    crc32c (u ++ x :: v) ≠ crc32c (u ++ y :: v) := by
  intro h
  unfold crc32c at h
  have h' := xor_right_cancel h
  rw [List.foldl_append, List.foldl_append, List.foldl_cons, List.foldl_cons] at h'
  have hc : u.foldl crcUpdate 0xFFFFFFFF < 2 ^ 32 := foldl_crcUpdate_lt u (by norm_num)
  have hupd :
      crcUpdate (u.foldl crcUpdate 0xFFFFFFFF) x
        = crcUpdate (u.foldl crcUpdate 0xFFFFFFFF) y :=
    foldl_crcUpdate_inj v (crcUpdate_lt x hc) (crcUpdate_lt y hc) h'
  unfold crcUpdate at hupd
  have hx32 : x % 256 < 2 ^ 32 := by omega
  have hy32 : y % 256 < 2 ^ 32 := by omega
  have := crcStep8_inj (Nat.xor_lt_two_pow hc hx32) (Nat.xor_lt_two_pow hc hy32) hupd
  have := xor_left_cancel this
  rw [Nat.mod_eq_of_lt hx, Nat.mod_eq_of_lt hy] at this
  exact hne this

/-- Flip bit `i` of byte `j` of a byte string. -/
def flipBit (p : List Nat) (j i : Nat) : List Nat :=
  p.set j (p.getD j 0 ^^^ 2 ^ i)

theorem crc32c_flipBit_ne (p : List Nat) (j i : Nat) (hj : j < p.length)
    (hb : p.getD j 0 < 256) (hi : i < 8) :
    crc32c (flipBit p j i) ≠ crc32c p := by
  have hdecomp : p = p.take j ++ p[j] :: p.drop (j + 1) := by
    rw [List.getElem_cons_drop p j hj, List.take_append_drop]
  have hset : flipBit p j i = p.take j ++ (p[j] ^^^ 2 ^ i) :: p.drop (j + 1) := by
    rw [flipBit, List.set_eq_take_append_cons_drop, if_pos hj,
      List.getD_eq_getElem p 0 hj]
  have hpow : 2 ^ i < 256 := by
    calc 2 ^ i < 2 ^ 8 := Nat.pow_lt_pow_right (by norm_num) hi
      _ = 256 := by norm_num
  have hgb : p[j] < 256 := by rwa [List.getD_eq_getElem p 0 hj] at hb
  have hxlt : p[j] ^^^ 2 ^ i < 256 := by
    have h8 : (256 : Nat) = 2 ^ 8 := by norm_num
    rw [h8] at hgb hpow ⊢
    exact Nat.xor_lt_two_pow hgb hpow
  have hxne : p[j] ^^^ 2 ^ i ≠ p[j] := by
    intro hcontra
    have : p[j] ^^^ 2 ^ i = p[j] ^^^ 0 := by simpa using hcontra
    have := xor_left_cancel this
    exact absurd this (Nat.pos_iff_ne_zero.mp (Nat.pos_pow_of_pos i (by norm_num)))
  rw [hset]
  conv_rhs => rw [hdecomp]
  exact crc32c_ne_of_byte_ne (p.take j) (p.drop (j + 1)) hxlt hgb hxne

theorem crc32c_lt (bs : List Nat) : crc32c bs < 2 ^ 32 := by
  unfold crc32c
  exact Nat.xor_lt_two_pow (foldl_crcUpdate_lt bs (by norm_num)) (by norm_num)

/-! ## Chain and slice lemmas -/

theorem length_diskBlockOf (c : Codec) (ts : List (List Nat)) :
    (diskBlockOf c ts).length = StorageBlockHeaderSize + (c.comp (blockList ts)).length := by
  simp [diskBlockOf, length_natToLE, StorageBlockHeaderSize]
  omega

theorem chainOf_nil (c : Codec) : chainOf c [] = [] := rfl

theorem chainOf_append (c : Codec) (a b : List (List (List Nat))) :
    chainOf c (a ++ b) = chainOf c a ++ chainOf c b := by
  simp [chainOf]

theorem chainOf_cons (c : Codec) (x : List (List Nat)) (b : List (List (List Nat))) :
    chainOf c (x :: b) = diskBlockOf c x ++ chainOf c b := by
  simp [chainOf]

theorem lboOf_nil (c : Codec) : lboOf c [] = StorageFileHeaderSize := by
  simp [lboOf, chainOf]

theorem lboOf_concat (c : Codec) (blocks : List (List (List Nat))) (cur : List (List Nat)) :
    lboOf c (blocks ++ [cur]) = StorageFileHeaderSize + (chainOf c blocks).length := by
  simp [lboOf, List.dropLast_concat]

theorem readBytes_memOfList_middle (a b c2 : List Nat) {k : Nat} (hk : k ≤ b.length) :
    readBytes (memOfList (a ++ b ++ c2)) a.length k = b.take k := by
  rw [readBytes_memOfList (by simp; omega)]
  rw [List.append_assoc, List.drop_left, List.take_append_of_le_length hk]

theorem readBytes_tuple_header (e1 t e2 : List Nat) :
    readBytes (memOfList (e1 ++ encodeTuple t ++ e2)) e1.length 8
      = natToLE 8 (MAXALIGN t.length) := by
  have h8 : (8 : Nat) ≤ (encodeTuple t).length := by
    rw [length_encodeTuple, tlen_eq]; omega
  rw [readBytes_memOfList_middle _ _ _ h8]
  have hsplit : encodeTuple t = natToLE 8 (MAXALIGN t.length)
      ++ (t ++ List.replicate (MAXALIGN t.length - t.length) 0) := by
    simp [encodeTuple]
  rw [hsplit, List.take_append_of_le_length (by rw [length_natToLE]),
    List.take_of_length_le (by rw [length_natToLE])]

theorem readBytes_tuple_body (e1 t e2 : List Nat) :
    readBytes (memOfList (e1 ++ encodeTuple t ++ e2)) (e1.length + 8) (MAXALIGN t.length)
      = padRow t := by
  have hregroup : e1 ++ encodeTuple t ++ e2
      = (e1 ++ natToLE 8 (MAXALIGN t.length)) ++ padRow t ++ e2 := by
    simp [encodeTuple, padRow]
  have hlen : e1.length + 8 = (e1 ++ natToLE 8 (MAXALIGN t.length)).length := by
    simp [length_natToLE]
  have hpadlen : (padRow t).length = MAXALIGN t.length := by
    have := le_MAXALIGN t.length
    simp [padRow]; omega
  rw [hregroup, hlen, readBytes_memOfList_middle _ _ _ (by rw [hpadlen]),
    ← hpadlen, List.take_length]

theorem readBytes_past_encoded (e : List Nat) (off n : Nat) (h : e.length ≤ off) :
    leToNat (readBytes (memOfList e) off n) = 0 := by
  rw [readBytes_memOfList_past n h, leToNat_replicate_zero]

theorem readBytes_memZero (off n : Nat) : readBytes memZero off n = List.replicate n 0 := by
  rw [memZero_eq_memOfList_nil]
  exact readBytes_memOfList_past n (by simp)

theorem writeTuple_encoding (e t : List Nat) :
    writeBytes (writeBytes (memOfList e) e.length (natToLE 8 (MAXALIGN t.length)))
      (e.length + StorageTupleHeaderSize) t = memOfList (e ++ encodeTuple t) := by
  have h1 : e.length + StorageTupleHeaderSize
      = e.length + (natToLE 8 (MAXALIGN t.length)).length := by
    simp [length_natToLE, StorageTupleHeaderSize]
  rw [h1, writeBytes_writeBytes_append]
  have h2 : writeBytes (memOfList e) e.length (natToLE 8 (MAXALIGN t.length) ++ t)
      = memOfList (e ++ (natToLE 8 (MAXALIGN t.length) ++ t)) :=
    writeBytes_memOfList_append _ _
  rw [h2]
  have h3 : e ++ encodeTuple t
      = (e ++ (natToLE 8 (MAXALIGN t.length) ++ t))
          ++ List.replicate (MAXALIGN t.length - t.length) 0 := by
    simp [encodeTuple]
  rw [h3, memOfList_append_replicate_zero]

/-- The tuple-length value stored in a header is below `256 ^ 8`, so it
    round-trips through the 8-byte little-endian field. -/
theorem MAXALIGN_len_lt (t : List Nat) (h : tlen t ≤ BLOCK_SIZE) :
    MAXALIGN t.length < 256 ^ 8 := by
  have h1 : MAXALIGN t.length + 8 = tlen t := (tlen_eq t).symm
  have : BLOCK_SIZE = 1048576 := by norm_num [BLOCK_SIZE]
  have : (256 : Nat) ^ 8 = 18446744073709551616 := by norm_num
  omega

/-! ## find_last_tuple_offset on encoded blocks -/

theorem find_last_tuple_offset_encoded (ts : List (List Nat)) :
    ∀ pre : List (List Nat), (∀ t ∈ ts, t ≠ []) → (∀ t ∈ ts, tlen t ≤ BLOCK_SIZE) →
    encLen pre + encLen ts ≤ BLOCK_SIZE →
    find_last_tuple_offset (memOfList (encodeTuples (pre ++ ts))) (encLen pre)
      = encLen pre + encLen ts := by
  induction ts with
  | nil =>
    intro pre _ _ hlen
    simp only [List.append_nil, encLen_nil, Nat.add_zero]
    unfold find_last_tuple_offset
    by_cases hlt : encLen pre < BLOCK_SIZE
    · rw [dif_pos hlt]
      have h0 : leToNat (readBytes (memOfList (encodeTuples pre))
          (encLen pre) StorageTupleHeaderSize) = 0 := by
        apply readBytes_past_encoded
        rw [length_encodeTuples]
      rw [h0]
      simp
    · rw [dif_neg hlt]
  | cons t ts ih =>
    intro pre hne hfit hlen
    have htpos : 0 < t.length :=
      List.length_pos.mpr (hne t (by simp))
    have htlen : tlen t ≤ BLOCK_SIZE := hfit t (by simp)
    have hts_len : encLen (t :: ts) = tlen t + encLen ts := encLen_cons t ts
    have hofflt : encLen pre < BLOCK_SIZE := by
      have := tlen_pos t
      omega
    have hdecomp : encodeTuples (pre ++ t :: ts)
        = encodeTuples pre ++ encodeTuple t ++ encodeTuples ts := by
      rw [show pre ++ t :: ts = (pre ++ [t]) ++ ts by simp,
        encodeTuples_append, encodeTuples_append]
      simp [encodeTuples]
    unfold find_last_tuple_offset
    rw [dif_pos hofflt]
    have hhdr : readBytes (memOfList (encodeTuples (pre ++ t :: ts)))
        (encLen pre) StorageTupleHeaderSize = natToLE 8 (MAXALIGN t.length) := by
      rw [hdecomp, show StorageTupleHeaderSize = 8 from rfl,
        ← length_encodeTuples pre]
      exact readBytes_tuple_header _ _ _
    rw [hhdr, leToNat_natToLE (MAXALIGN_len_lt t htlen)]
    have hal0 : ¬ MAXALIGN t.length = 0 := by
      have := MAXALIGN_pos htpos
      omega
    rw [if_neg hal0]
    have henc1 : encLen (pre ++ [t]) = encLen pre + tlen t := by
      rw [encLen_append, encLen_cons, encLen_nil]
      omega
    have hadv : encLen pre + MAXALIGN t.length + StorageTupleHeaderSize
        = encLen (pre ++ [t]) := by
      rw [henc1, tlen_eq, StorageTupleHeaderSize_eq]
      omega
    rw [hadv, show pre ++ t :: ts = (pre ++ [t]) ++ ts by simp]
    rw [ih (pre ++ [t]) (fun u hu => hne u (by simp [hu]))
      (fun u hu => hfit u (by simp [hu])) (by rw [henc1]; omega)]
    rw [henc1]
    omega

/-! ## Writer invariant: the state after inserting rows from a fresh file -/

theorem encodeTuples_singleton (t : List Nat) : encodeTuples [t] = encodeTuple t := by
  simp [encodeTuples]

theorem encLen_singleton (t : List Nat) : encLen [t] = tlen t := by
  simp [encLen]

/-- State invariant while writing: `blocks` have been flushed to the file,
    `cur` is the content of the current (never yet flushed, `BS_NEW`) block. -/
structure WInv (c : Codec) (blocks : List (List (List Nat))) (cur : List (List Nat))
    (s : StorageState) : Prop where
  hfile : s.file = natToLE 8 (lboOf c blocks) ++ chainOf c blocks
  hlbo : s.last_block_offset = lboOf c blocks
  hstatus : s.cur_block.status = .BS_NEW
  hoffset : s.cur_block.offset = StorageFileHeaderSize + (chainOf c blocks).length
  hdata : s.cur_block.data = memOfList (encodeTuples cur)
  hcur : s.cur_offset = encLen cur
  hlen : encLen cur ≤ BLOCK_SIZE
  hro : s.readonly = false
  hmm : s.mmaped = none

/-- The state right after `StorageInit` on a fresh empty file opened
    read-write: the 8-byte header pointing right past itself is persisted. -/
def freshState : StorageState :=
  { file := natToLE 8 StorageFileHeaderSize, readonly := false, mmaped := none,
    last_block_offset := StorageFileHeaderSize,
    cur_block := ⟨.BS_INVALID, 0, 0, memZero⟩, cur_offset := 0 }

theorem StorageInit_fresh : StorageInit [] false false = .ok freshState := by
  unfold StorageInit read_storage_file_header write_storage_file_header
  simp [writeAt, freshState]

theorem find_last_tuple_offset_memZero : find_last_tuple_offset memZero 0 = 0 := by
  unfold find_last_tuple_offset
  rw [dif_pos (by norm_num [BLOCK_SIZE])]
  rw [show leToNat (readBytes memZero 0 StorageTupleHeaderSize) = 0 by
    rw [readBytes_memZero, leToNat_replicate_zero]]
  simp

theorem flush_WInv (c : Codec) {blocks : List (List (List Nat))}
    {cur : List (List Nat)} {s : StorageState} (inv : WInv c blocks cur s) :
    ∃ sF, flush_last_block c s = .ok sF ∧
      sF.file = natToLE 8 (lboOf c (blocks ++ [cur])) ++ chainOf c (blocks ++ [cur]) ∧
      sF.last_block_offset = lboOf c (blocks ++ [cur]) ∧
      sF.cur_block.status = .BS_LOADED ∧
      sF.cur_block.offset = s.cur_block.offset ∧
      sF.cur_block.compressed_size = (c.comp (blockList cur)).length ∧
      sF.cur_block.data = s.cur_block.data ∧
      sF.cur_offset = s.cur_offset ∧
      sF.readonly = s.readonly ∧ sF.mmaped = s.mmaped := by
  obtain ⟨hfile, hlbo, hstatus, hoffset, hdata, hcur, hlen, hro, hmm⟩ := inv
  have hpayload : readBytes s.cur_block.data 0 BLOCK_SIZE = blockList cur := by
    rw [hdata, readBytes_memOfList_full (by rw [length_encodeTuples]; exact hlen)]
    rw [blockList]
  have hlenBL : (blockList cur).length = BLOCK_SIZE := length_blockList hlen
  have hpos : ¬ ((c.comp (blockList cur)).length = 0) := by
    have := c.comp_pos _ hlenBL
    omega
  have hfl : s.file.length = s.cur_block.offset := by
    rw [hfile, hoffset]
    simp [length_natToLE, StorageFileHeaderSize_eq]
  unfold flush_last_block
  rw [if_neg (by rw [hstatus]; simp)]
  rw [hpayload, if_neg hpos]
  rw [if_pos (by simpa using hstatus)]
  refine ⟨_, rfl, ?_, ?_, rfl, rfl, rfl, rfl, rfl, rfl, rfl⟩
  · simp only [write_storage_file_header]
    show writeAt (writeAt s.file s.cur_block.offset _) 0 _ = _
    rw [← hfl, writeAt_append, hfile, List.append_assoc,
      writeAt_prefix _ _ _ (by simp [length_natToLE]),
      lboOf_concat, chainOf_append, chainOf_cons, chainOf_nil]
    simp [length_natToLE, diskBlockOf, StorageFileHeaderSize_eq, hfile]
  · simp only [write_storage_file_header]
    show s.cur_block.offset = _
    rw [lboOf_concat, hoffset]

theorem tlen_def (t : List Nat) :
    tlen t = MAXALIGN (t.length + StorageTupleHeaderSize) := rfl

theorem sres_bind_ok {α β : Type} (a : α) (f : α → SRes β) :
    (Bind.bind (Except.ok a) f : SRes β) = f a := rfl

theorem sres_bind_pure {α β : Type} (a : α) (f : α → SRes β) :
    (Bind.bind (Pure.pure a) f : SRes β) = f a := rfl

theorem allocate_new_block_of_ne {s : StorageState} (h : s.cur_block.offset ≠ 0) :
    allocate_new_block s
      = { s with
          cur_block := Block.mk .BS_NEW
            (s.cur_block.offset + StorageBlockHeaderSize + s.cur_block.compressed_size)
            s.cur_block.compressed_size memZero,
          cur_offset := 0 } := by
  unfold allocate_new_block
  rw [if_pos h]

theorem insert_fit (c : Codec) {blocks : List (List (List Nat))}
    {cur : List (List Nat)} {s : StorageState} (inv : WInv c blocks cur s)
    (t : List Nat) (hfit : encLen cur + tlen t ≤ BLOCK_SIZE) :
    ∃ s', StorageInsertTuple c s t = .ok s' ∧ WInv c blocks (cur ++ [t]) s' := by
  obtain ⟨hfile, hlbo, hstatus, hoffset, hdata, hcur, hlen, hro, hmm⟩ := inv
  have hnotbig : ¬ (BLOCK_SIZE < MAXALIGN (t.length + StorageTupleHeaderSize)) := by
    rw [← tlen_def t]; omega
  have hov : ¬ (BLOCK_SIZE < s.cur_offset + MAXALIGN (t.length + StorageTupleHeaderSize)) := by
    rw [← tlen_def t, hcur]; omega
  have hst : ¬ (s.cur_block.status = .BS_INVALID) := by rw [hstatus]; simp
  unfold StorageInsertTuple
  rw [if_neg hnotbig, if_neg hst, sres_bind_pure]
  beta_reduce
  rw [if_neg hov, sres_bind_pure]
  refine ⟨_, rfl, ?_, ?_, ?_, ?_, ?_, ?_, ?_, ?_, ?_⟩
  · exact hfile
  · exact hlbo
  · show (if s.cur_block.status ≠ .BS_NEW then BlockStatus.BS_MODIFIED else .BS_NEW)
      = .BS_NEW
    rw [hstatus]
    simp
  · exact hoffset
  · show writeBytes (writeBytes s.cur_block.data s.cur_offset
        (natToLE 8 (MAXALIGN t.length))) (s.cur_offset + StorageTupleHeaderSize) t
      = memOfList (encodeTuples (cur ++ [t]))
    rw [hdata, hcur, ← length_encodeTuples, writeTuple_encoding,
      encodeTuples_append, encodeTuples_singleton]
  · show s.cur_offset + MAXALIGN (t.length + StorageTupleHeaderSize) = encLen (cur ++ [t])
    rw [← tlen_def t, hcur, encLen_append, encLen_singleton]
  · rw [encLen_append, encLen_singleton]; omega
  · exact hro
  · exact hmm

theorem insert_roll (c : Codec) {blocks : List (List (List Nat))}
    {cur : List (List Nat)} {s : StorageState} (inv : WInv c blocks cur s)
    (t : List Nat) (ht : tlen t ≤ BLOCK_SIZE)
    (hover : BLOCK_SIZE < encLen cur + tlen t) :
    ∃ s', StorageInsertTuple c s t = .ok s' ∧ WInv c (blocks ++ [cur]) [t] s' := by
  obtain ⟨sF, hF, hFfile, hFlbo, hFstatus, hFoffset, hFcsize, hFdata, hFcur, hFro, hFmm⟩ :=
    flush_WInv c inv
  obtain ⟨hfile, hlbo, hstatus, hoffset, hdata, hcur, hlen, hro, hmm⟩ := inv
  have hnotbig : ¬ (BLOCK_SIZE < MAXALIGN (t.length + StorageTupleHeaderSize)) := by
    rw [← tlen_def t]; omega
  have hov : BLOCK_SIZE < s.cur_offset + MAXALIGN (t.length + StorageTupleHeaderSize) := by
    rw [← tlen_def t, hcur]; omega
  have hst : ¬ (s.cur_block.status = .BS_INVALID) := by rw [hstatus]; simp
  have hoffne : sF.cur_block.offset ≠ 0 := by
    rw [hFoffset, hoffset, StorageFileHeaderSize_eq]
    omega
  unfold StorageInsertTuple
  rw [if_neg hnotbig, if_neg hst, sres_bind_pure]
  beta_reduce
  rw [if_pos hov, hF, sres_bind_ok]
  beta_reduce
  rw [allocate_new_block_of_ne hoffne, sres_bind_pure]
  refine ⟨_, rfl, ?_, ?_, ?_, ?_, ?_, ?_, ?_, ?_, ?_⟩
  · exact hFfile
  · exact hFlbo
  · simp
  · show sF.cur_block.offset + StorageBlockHeaderSize + sF.cur_block.compressed_size
      = StorageFileHeaderSize + (chainOf c (blocks ++ [cur])).length
    rw [hFoffset, hFcsize, hoffset, chainOf_append, chainOf_cons, chainOf_nil,
      List.length_append, List.append_nil, length_diskBlockOf]
    omega
  · show writeBytes (writeBytes memZero 0 (natToLE 8 (MAXALIGN t.length)))
        (0 + StorageTupleHeaderSize) t = memOfList (encodeTuples [t])
    rw [memZero_eq_memOfList_nil, encodeTuples_singleton]
    have h0 : (0 : Nat) = ([] : List Nat).length := rfl
    rw [h0, writeTuple_encoding]
    simp
  · show 0 + MAXALIGN (t.length + StorageTupleHeaderSize) = encLen [t]
    rw [← tlen_def t, encLen_singleton]
    omega
  · rw [encLen_singleton]; exact ht
  · exact hFro.trans hro
  · exact hFmm.trans hmm

theorem insert_first (c : Codec) (t : List Nat) (ht : tlen t ≤ BLOCK_SIZE) :
    ∃ s', StorageInsertTuple c freshState t = .ok s' ∧ WInv c [] [t] s' := by
  have hnotbig : ¬ (BLOCK_SIZE < MAXALIGN (t.length + StorageTupleHeaderSize)) := by
    rw [← tlen_def t]; omega
  have hload : load_last_block c freshState = .ok (allocate_new_block freshState) := by
    unfold load_last_block read_block
    have hnone : freadBytes freshState.file StorageFileHeaderSize StorageBlockHeaderSize
        = none := by
      apply freadBytes_none
      simp [freshState, length_natToLE, StorageFileHeaderSize_eq, StorageBlockHeaderSize_eq]
    simp only [freshState] at hnone ⊢
    rw [hnone]
    rfl
  have halloc : allocate_new_block freshState
      = { freshState with
          cur_block := ⟨.BS_NEW, StorageFileHeaderSize, 0, memZero⟩,
          cur_offset := 0 } := by
    unfold allocate_new_block
    rw [if_neg (by simp [freshState])]
    rfl
  unfold StorageInsertTuple
  rw [if_neg hnotbig, if_pos (show freshState.cur_block.status = .BS_INVALID from rfl),
    hload, sres_bind_ok]
  simp only [halloc]
  rw [find_last_tuple_offset_memZero, sres_bind_pure]
  rw [if_neg (show ¬ (BLOCK_SIZE < 0 + MAXALIGN (t.length + StorageTupleHeaderSize)) by
    rw [← tlen_def t]; omega), sres_bind_pure]
  refine ⟨_, rfl, ?_, ?_, ?_, ?_, ?_, ?_, ?_, ?_, ?_⟩
  · show freshState.file = natToLE 8 (lboOf c []) ++ chainOf c []
    rw [lboOf_nil, chainOf_nil, List.append_nil]
    rfl
  · show freshState.last_block_offset = lboOf c []
    rw [lboOf_nil]
    rfl
  · simp
  · show StorageFileHeaderSize = StorageFileHeaderSize + (chainOf c []).length
    rw [chainOf_nil]
    simp
  · show writeBytes (writeBytes memZero 0 (natToLE 8 (MAXALIGN t.length)))
        (0 + StorageTupleHeaderSize) t = memOfList (encodeTuples [t])
    rw [memZero_eq_memOfList_nil, encodeTuples_singleton]
    have h0 : (0 : Nat) = ([] : List Nat).length := rfl
    rw [h0, writeTuple_encoding]
    simp
  · show 0 + MAXALIGN (t.length + StorageTupleHeaderSize) = encLen [t]
    rw [← tlen_def t, encLen_singleton]
    omega
  · rw [encLen_singleton]; exact ht
  · rfl
  · rfl

theorem insertTuples_WInv (c : Codec) (ts : List (List Nat)) :
    ∀ {blocks : List (List (List Nat))} {cur : List (List Nat)} {s : StorageState},
      WInv c blocks cur s → (∀ t ∈ ts, tlen t ≤ BLOCK_SIZE) →
      ∃ s', insertTuples c s ts = .ok s' ∧
        WInv c (blocks ++ (packGo cur ts).1) (packGo cur ts).2 s' := by
  induction ts with
  | nil =>
    intro blocks cur s inv _
    exact ⟨s, rfl, by simpa [packGo] using inv⟩
  | cons t ts ih =>
    intro blocks cur s inv hfit
    by_cases hov : BLOCK_SIZE < encLen cur + tlen t
    · obtain ⟨s1, h1, inv1⟩ := insert_roll c inv t (hfit t (by simp)) hov
      obtain ⟨s2, h2, inv2⟩ := ih inv1 (fun u hu => hfit u (by simp [hu]))
      refine ⟨s2, ?_, ?_⟩
      · show (Bind.bind (StorageInsertTuple c s t) fun s' => insertTuples c s' ts) = .ok s2
        rw [h1, sres_bind_ok]
        exact h2
      · simp only [packGo, if_pos hov]
        rw [show blocks ++ (cur :: (packGo [t] ts).1) = (blocks ++ [cur]) ++ (packGo [t] ts).1
          by simp]
        exact inv2
    · obtain ⟨s1, h1, inv1⟩ := insert_fit c inv t (by omega)
      obtain ⟨s2, h2, inv2⟩ := ih inv1 (fun u hu => hfit u (by simp [hu]))
      refine ⟨s2, ?_, ?_⟩
      · show (Bind.bind (StorageInsertTuple c s t) fun s' => insertTuples c s' ts) = .ok s2
        rw [h1, sres_bind_ok]
        exact h2
      · simp only [packGo, if_neg hov]
        exact inv2

theorem release_WInv (c : Codec) {blocks : List (List (List Nat))}
    {cur : List (List Nat)} {s : StorageState} (inv : WInv c blocks cur s) :
    ∃ s', StorageRelease c s = .ok s' ∧
      s'.file = natToLE 8 (lboOf c (blocks ++ [cur])) ++ chainOf c (blocks ++ [cur]) := by
  obtain ⟨sF, hF, hfile, _⟩ := flush_WInv c inv
  refine ⟨sF, ?_, hfile⟩
  unfold StorageRelease
  rw [if_pos (Or.inl inv.hstatus)]
  exact hF

/-- End-to-end writer: a session on a fresh empty file leaves on disk exactly
    the file header followed by the chain of greedily packed blocks. -/
theorem writeFile_disk (c : Codec) (ts : List (List Nat))
    (hfit : ∀ t ∈ ts, tlen t ≤ BLOCK_SIZE) :
    ∃ sR, writeFile c ts = .ok sR ∧
      sR.file = natToLE 8 (lboOf c (packAll ts)) ++ chainOf c (packAll ts) := by
  unfold writeFile
  rw [StorageInit_fresh, sres_bind_ok]
  cases ts with
  | nil =>
    refine ⟨freshState, ?_, ?_⟩
    · show (Bind.bind (insertTuples c freshState []) fun s1 => StorageRelease c s1)
        = .ok freshState
      rw [show insertTuples c freshState [] = .ok freshState from rfl, sres_bind_ok]
      unfold StorageRelease
      rw [if_neg (by simp [freshState])]
    · show freshState.file = _
      rw [show packAll ([] : List (List Nat)) = [] from rfl, lboOf_nil, chainOf_nil,
        List.append_nil]
      rfl
  | cons t ts =>
    obtain ⟨s1, h1, inv1⟩ := insert_first c t (hfit t (by simp))
    obtain ⟨s2, h2, inv2⟩ := insertTuples_WInv c ts inv1 (fun u hu => hfit u (by simp [hu]))
    obtain ⟨sR, hR, hRfile⟩ := release_WInv c inv2
    refine ⟨sR, ?_, ?_⟩
    · show (Bind.bind (insertTuples c freshState (t :: ts)) fun s1 => StorageRelease c s1)
        = .ok sR
      rw [show insertTuples c freshState (t :: ts)
          = Bind.bind (StorageInsertTuple c freshState t) fun s' => insertTuples c s' ts
        from rfl]
      rw [h1, sres_bind_ok, h2, sres_bind_ok]
      exact hR
    · rw [hRfile]
      rw [show packAll (t :: ts) = (packGo [t] ts).1 ++ [(packGo [t] ts).2] from rfl]
      simp

/-! ## Reader lemmas: loading blocks back from a chained file -/

theorem sres_bind_err {α β : Type} (e : StorageError × StorageState)
    (f : α → SRes β) : (Bind.bind (Except.error e) f : SRes β) = .error e := rfl

/-- The offset `load_next_block` reads from. -/
def nextOff (s : StorageState) : Nat :=
  if s.cur_block.status = .BS_INVALID then StorageFileHeaderSize
  else s.cur_block.offset + StorageBlockHeaderSize + s.cur_block.compressed_size

theorem load_next_block_eq (c : Codec) (s : StorageState) :
    load_next_block c s = read_block c s (nextOff s) := rfl

/-- The first `BLOCK_SIZE` bytes of the block buffer agree with the encoded
    record list `e` (zero-extended); bytes past the buffer are irrelevant. -/
def MemMatches (m : Mem) (e : List Nat) : Prop :=
  ∀ i, i < BLOCK_SIZE → m i = memOfList e i

theorem readBytes_matches {m : Mem} {e : List Nat} (h : MemMatches m e) {off n : Nat}
    (hb : off + n ≤ BLOCK_SIZE) :
    readBytes m off n = readBytes (memOfList e) off n := by
  apply List.ext_getElem (by simp [length_readBytes])
  intro i h1 h2
  rw [getElem_readBytes, getElem_readBytes]
  have hi : i < n := by simpa [length_readBytes] using h1
  exact h _ (by omega)

theorem writeBytes_blockList_matches (m : Mem) {ts : List (List Nat)}
    (h : encLen ts ≤ BLOCK_SIZE) :
    MemMatches (writeBytes m 0 (blockList ts)) (encodeTuples ts) := by
  intro i hi
  have hlen : (blockList ts).length = BLOCK_SIZE := length_blockList h
  show (if 0 ≤ i ∧ i < 0 + (blockList ts).length then (blockList ts).getD (i - 0) 0 else m i)
    = (encodeTuples ts).getD i 0
  rw [if_pos (by omega), Nat.sub_zero]
  unfold blockList
  by_cases hc : i < (encodeTuples ts).length
  · rw [List.getD_append _ _ _ _ hc]
  · rw [List.getD_append_right _ _ _ _ (by omega),
      List.getD_eq_default (encodeTuples ts) 0 (by omega)]
    rcases Nat.lt_or_ge (i - (encodeTuples ts).length)
      (BLOCK_SIZE - (encodeTuples ts).length) with hr | hr
    · rw [List.getD_eq_getElem (List.replicate (BLOCK_SIZE - (encodeTuples ts).length) 0) 0
        (by simpa using hr), List.getElem_replicate]
    · rw [List.getD_eq_default (List.replicate (BLOCK_SIZE - (encodeTuples ts).length) 0) 0
        (by simpa using hr)]

/-- The state after `read_block` successfully loads a block holding the
    records `b` from offset `off`. -/
def loadedState (c : Codec) (s : StorageState) (b : List (List Nat)) (off : Nat) :
    StorageState :=
  { s with
    cur_block := Block.mk .BS_LOADED off (c.comp (blockList b)).length
      (writeBytes s.cur_block.data 0 (blockList b)),
    cur_offset := 0 }

theorem take_append_exact (a b : List Nat) {n : Nat} (h : n = a.length) :
    (a ++ b).take n = a := by
  subst h
  exact List.take_left a b

theorem drop_append_exact (a b : List Nat) {n : Nat} (h : n = a.length) :
    (a ++ b).drop n = b := by
  subst h
  exact List.drop_left a b

theorem read_block_ok (c : Codec) (s : StorageState) {b : List (List Nat)} {off : Nat}
    {rest : List Nat} (hm : s.mmaped = none)
    (hdrop : s.file.drop off = diskBlockOf c b ++ rest)
    (hlen : encLen b ≤ BLOCK_SIZE) :
    read_block c s off = .ok (true, loadedState c s b off) := by
  have hBL : (blockList b).length = BLOCK_SIZE := length_blockList hlen
  have hplt : (c.comp (blockList b)).length < 2 ^ 31 := c.comp_lt _ hBL
  have hdlen : (diskBlockOf c b).length
      = StorageBlockHeaderSize + (c.comp (blockList b)).length := length_diskBlockOf c b
  have hoffle : off + StorageBlockHeaderSize + (c.comp (blockList b)).length
      ≤ s.file.length := by
    by_cases hc : off ≤ s.file.length
    · have h1 := congrArg List.length hdrop
      rw [List.length_drop] at h1
      simp only [List.length_append, hdlen] at h1
      omega
    · exfalso
      have hnil : s.file.drop off = [] := List.drop_eq_nil_of_le (by omega)
      rw [hnil] at hdrop
      have h2 := congrArg List.length hdrop
      simp only [List.length_nil, List.length_append, hdlen,
        StorageBlockHeaderSize_eq] at h2
      omega
  have hregroup : s.file.drop off
      = (natToLE 4 (c.comp (blockList b)).length ++ natToLE 4 (crc32c (c.comp (blockList b))))
        ++ (c.comp (blockList b) ++ rest) := by
    rw [hdrop]
    simp [diskBlockOf]
  have hhdr : freadBytes s.file off StorageBlockHeaderSize
      = some (natToLE 4 (c.comp (blockList b)).length
          ++ natToLE 4 (crc32c (c.comp (blockList b)))) := by
    rw [freadBytes_of_le (by omega), hregroup,
      take_append_exact _ _ (by simp [length_natToLE, StorageBlockHeaderSize_eq])]
  have htake4 : (natToLE 4 (c.comp (blockList b)).length
      ++ natToLE 4 (crc32c (c.comp (blockList b)))).take 4
      = natToLE 4 (c.comp (blockList b)).length :=
    take_append_exact _ _ (by simp [length_natToLE])
  have hdrop4 : (natToLE 4 (c.comp (blockList b)).length
      ++ natToLE 4 (crc32c (c.comp (blockList b)))).drop 4
      = natToLE 4 (crc32c (c.comp (blockList b))) :=
    drop_append_exact _ _ (by simp [length_natToLE])
  have hcsize : leToNat (natToLE 4 (c.comp (blockList b)).length)
      = (c.comp (blockList b)).length := by
    apply leToNat_natToLE
    calc (c.comp (blockList b)).length < 2 ^ 31 := hplt
      _ < 256 ^ 4 := by norm_num
  have hstored : leToNat (natToLE 4 (crc32c (c.comp (blockList b))))
      = crc32c (c.comp (blockList b)) := by
    apply leToNat_natToLE
    calc crc32c (c.comp (blockList b)) < 2 ^ 32 := crc32c_lt _
      _ = 256 ^ 4 := by norm_num
  have hpayload : freadBytes s.file (off + StorageBlockHeaderSize)
      (c.comp (blockList b)).length = some (c.comp (blockList b)) := by
    rw [freadBytes_of_le (by omega), ← List.drop_drop, hregroup,
      drop_append_exact _ _ (by simp [length_natToLE, StorageBlockHeaderSize_eq]),
      take_append_exact _ _ rfl]
  unfold read_block
  simp only [hm, hhdr, htake4, hcsize, hpayload, hdrop4, hstored]
  rw [if_neg (by simp)]
  simp only [c.round _ hBL]
  simp [loadedState, hm]

/-- The condition under which `StorageReadTuple` goes to the reload path:
    no block loaded, or the (in-bounds) record at the cursor has zero
    length. -/
def LoadTrigger (s : StorageState) : Prop :=
  s.cur_block.status = .BS_INVALID ∨
    (s.cur_offset + StorageTupleHeaderSize ≤ BLOCK_SIZE ∧
      leToNat (readBytes s.cur_block.data s.cur_offset StorageTupleHeaderSize) = 0)

theorem StorageReadTuple_load (c : Codec) (s : StorageState) (htrig : LoadTrigger s) :
    StorageReadTuple c s = readTupleLoad c s := by
  unfold StorageReadTuple
  by_cases hinv : s.cur_block.status = .BS_INVALID
  · rw [if_pos (Or.inl hinv)]
  · rcases htrig with h | ⟨hb, h0⟩
    · exact absurd h hinv
    · rw [if_neg (by push_neg; exact ⟨hinv, by rw [StorageTupleHeaderSize_eq] at hb; omega⟩)]
      unfold readTupleHeaderAt
      rw [if_pos hb]
      rw [sres_bind_ok, h0]
      simp

theorem readTupleLoad_fail (c : Codec) (s : StorageState) (hm : s.mmaped = none)
    (hend : s.file.length ≤ nextOff s) :
    readTupleLoad c s = .ok (none, s) := by
  unfold readTupleLoad
  rw [load_next_block_eq]
  unfold read_block
  rw [hm]
  rw [freadBytes_none (by rw [StorageBlockHeaderSize_eq]; omega)]
  rfl

/-- A state that signals end of data and does not change signals it forever. -/
theorem readTuples_none (c : Codec) {s : StorageState}
    (h : StorageReadTuple c s = .ok (none, s)) :
    ∀ k, readTuples c s k = .ok ([], s) := by
  intro k
  cases k with
  | zero => rfl
  | succ k =>
    show (Bind.bind (StorageReadTuple c s) _ : SRes _) = _
    rw [h, sres_bind_ok]

theorem readTuples_succ_err (c : Codec) {s : StorageState}
    {e : StorageError × StorageState} (h : StorageReadTuple c s = .error e) (n : Nat) :
    readTuples c s (n + 1) = .error e := by
  show (Bind.bind (StorageReadTuple c s) _ : SRes _) = _
  rw [h, sres_bind_err]

theorem readTuples_succ_none (c : Codec) {s s' : StorageState}
    (h : StorageReadTuple c s = .ok (none, s')) (n : Nat) :
    readTuples c s (n + 1) = .ok ([], s') := by
  show (Bind.bind (StorageReadTuple c s) _ : SRes _) = _
  rw [h, sres_bind_ok]

theorem readTuples_succ_some (c : Codec) {s s' : StorageState} {t : List Nat}
    (h : StorageReadTuple c s = .ok (some t, s')) (n : Nat) :
    readTuples c s (n + 1)
      = Bind.bind (readTuples c s' n) fun r => .ok (t :: r.1, r.2) := by
  show (Bind.bind (StorageReadTuple c s) _ : SRes _) = _
  rw [h, sres_bind_ok]

theorem readTuples_add (c : Codec) (m : Nat) :
    ∀ (n : Nat) (s : StorageState) (l : List (List Nat)) (s1 : StorageState),
      readTuples c s m = .ok (l, s1) → l.length = m →
      ∀ (l2 : List (List Nat)) (s2 : StorageState),
        readTuples c s1 n = .ok (l2, s2) →
        readTuples c s (m + n) = .ok (l ++ l2, s2) := by
  induction m with
  | zero =>
    intro n s l s1 h hl l2 s2 h2
    rw [show readTuples c s 0 = .ok ([], s) from rfl] at h
    injection h with h'
    obtain ⟨h1, h2'⟩ := (Prod.mk.injEq _ _ _ _).mp h'
    subst h2'
    rw [← h1]
    simpa using h2
  | succ m ih =>
    intro n s l s1 h hl l2 s2 h2
    cases hR : StorageReadTuple c s with
    | error e =>
      rw [readTuples_succ_err c hR] at h
      simp at h
    | ok r =>
      obtain ⟨t?, s'⟩ := r
      cases t? with
      | none =>
        rw [readTuples_succ_none c hR] at h
        injection h with h'
        obtain ⟨h1, _⟩ := (Prod.mk.injEq _ _ _ _).mp h'
        rw [← h1] at hl
        simp at hl
      | some t =>
        rw [readTuples_succ_some c hR] at h
        cases hM : readTuples c s' m with
        | error e =>
          rw [hM, sres_bind_err] at h
          simp at h
        | ok r2 =>
          obtain ⟨ts, s''⟩ := r2
          rw [hM, sres_bind_ok] at h
          injection h with h'
          obtain ⟨h1, h2'⟩ := (Prod.mk.injEq _ _ _ _).mp h'
          subst h2'
          have hts : ts.length = m := by
            rw [← h1] at hl
            simpa using hl
          have hrec := ih n s' ts s'' hM hts l2 s2 h2
          rw [show m + 1 + n = (m + n) + 1 by omega, readTuples_succ_some c hR,
            hrec, sres_bind_ok, ← h1]
          rfl

theorem encodeTuples_middle (a : List (List Nat)) (t : List Nat) (b : List (List Nat)) :
    encodeTuples (a ++ t :: b) = encodeTuples a ++ encodeTuple t ++ encodeTuples b := by
  rw [show a ++ t :: b = (a ++ [t]) ++ b by simp, encodeTuples_append, encodeTuples_append]
  simp [encodeTuples]

theorem encLen_middle (a : List (List Nat)) (t : List Nat) (b : List (List Nat)) :
    encLen (a ++ t :: b) = encLen a + tlen t + encLen b := by
  rw [encLen_append, encLen_cons]
  omega

theorem header_value {m : Mem} {done todo : List (List Nat)} {t : List Nat}
    (hmatch : MemMatches m (encodeTuples (done ++ t :: todo)))
    (hlen : encLen (done ++ t :: todo) ≤ BLOCK_SIZE) :
    leToNat (readBytes m (encLen done) StorageTupleHeaderSize) = MAXALIGN t.length := by
  have henc := encLen_middle done t todo
  have htt := tlen_eq t
  have htle : tlen t ≤ BLOCK_SIZE := by omega
  rw [readBytes_matches hmatch (by rw [StorageTupleHeaderSize_eq]; omega)]
  rw [StorageTupleHeaderSize_eq, encodeTuples_middle, ← length_encodeTuples,
    readBytes_tuple_header, leToNat_natToLE (MAXALIGN_len_lt t htle)]

theorem body_value {m : Mem} {done todo : List (List Nat)} {t : List Nat}
    (hmatch : MemMatches m (encodeTuples (done ++ t :: todo)))
    (hlen : encLen (done ++ t :: todo) ≤ BLOCK_SIZE) :
    readBytes m (encLen done + StorageTupleHeaderSize) (MAXALIGN t.length) = padRow t := by
  have henc := encLen_middle done t todo
  have htt := tlen_eq t
  rw [readBytes_matches hmatch (by rw [StorageTupleHeaderSize_eq]; omega)]
  rw [StorageTupleHeaderSize_eq, encodeTuples_middle, ← length_encodeTuples,
    readBytes_tuple_body]

theorem StorageReadTuple_mid (c : Codec) {s : StorageState}
    {done todo : List (List Nat)} {t : List Nat}
    (hst : s.cur_block.status = .BS_LOADED)
    (hmatch : MemMatches s.cur_block.data (encodeTuples (done ++ t :: todo)))
    (hoff : s.cur_offset = encLen done)
    (hlen : encLen (done ++ t :: todo) ≤ BLOCK_SIZE)
    (hne : t ≠ []) :
    StorageReadTuple c s = .ok (some (padRow t),
      { s with cur_offset := encLen (done ++ [t]) }) := by
  have htpos : 0 < t.length := List.length_pos.mpr hne
  have henc := encLen_middle done t todo
  have htt := tlen_eq t
  have hoffb : s.cur_offset + StorageTupleHeaderSize ≤ BLOCK_SIZE := by
    rw [hoff, StorageTupleHeaderSize_eq]
    omega
  have hhdr : leToNat (readBytes s.cur_block.data s.cur_offset StorageTupleHeaderSize)
      = MAXALIGN t.length := by
    rw [hoff]
    exact header_value hmatch hlen
  have hal0 : ¬ (MAXALIGN t.length = 0) := by
    have := MAXALIGN_pos htpos
    omega
  have hbody : readBytes s.cur_block.data (s.cur_offset + StorageTupleHeaderSize)
      (MAXALIGN t.length) = padRow t := by
    rw [hoff]
    exact body_value hmatch hlen
  have hcur2 : s.cur_offset + MAXALIGN t.length + StorageTupleHeaderSize
      = encLen (done ++ [t]) := by
    rw [hoff, encLen_append, encLen_singleton, StorageTupleHeaderSize_eq]
    omega
  unfold StorageReadTuple
  rw [if_neg (by
    push_neg
    refine ⟨by rw [hst]; simp, ?_⟩
    rw [hoff]
    omega)]
  unfold readTupleHeaderAt
  rw [if_pos hoffb, sres_bind_ok, hhdr, if_neg hal0]
  unfold readTupleFinish
  rw [hbody, hcur2]
  rfl

theorem readTuples_inblock (c : Codec) (todo : List (List Nat)) :
    ∀ (done : List (List Nat)) (s : StorageState),
      s.cur_block.status = .BS_LOADED →
      MemMatches s.cur_block.data (encodeTuples (done ++ todo)) →
      s.cur_offset = encLen done →
      encLen (done ++ todo) ≤ BLOCK_SIZE →
      (∀ t ∈ todo, t ≠ []) →
      readTuples c s todo.length
        = .ok (todo.map padRow, { s with cur_offset := encLen (done ++ todo) }) := by
  induction todo with
  | nil =>
    intro done s hst hmatch hoff hlen hne
    have hs : ({ s with cur_offset := encLen (done ++ []) }) = s := by
      rw [List.append_nil, ← hoff]
    rw [hs]
    rfl
  | cons t todo ih =>
    intro done s hst hmatch hoff hlen hne
    have hstep := StorageReadTuple_mid c hst hmatch hoff hlen (hne t (by simp))
    rw [show (t :: todo).length = todo.length + 1 by simp, readTuples_succ_some c hstep]
    have hih := ih (done ++ [t]) { s with cur_offset := encLen (done ++ [t]) }
      hst
      (by
        rw [show (done ++ [t]) ++ todo = done ++ t :: todo by simp]
        exact hmatch)
      rfl
      (by
        rw [show (done ++ [t]) ++ todo = done ++ t :: todo by simp]
        exact hlen)
      (fun u hu => hne u (by simp [hu]))
    rw [hih, sres_bind_ok]
    rw [show (done ++ [t]) ++ todo = done ++ t :: todo by simp]
    rfl

theorem readTupleLoad_ok (c : Codec) {s sL : StorageState}
    (h : load_next_block c s = .ok (true, sL)) :
    readTupleLoad c s
      = Bind.bind (readTupleHeaderAt sL 0) (fun len1 =>
          if len1 = 0 then pure (none, sL) else pure (readTupleFinish sL len1)) := by
  unfold readTupleLoad
  rw [h, sres_bind_ok]
  rfl

theorem StorageReadTuple_load_first (c : Codec) {s : StorageState}
    {t : List Nat} {btodo : List (List Nat)} {rest : List Nat}
    (hm : s.mmaped = none) (htrig : LoadTrigger s)
    (hdrop : s.file.drop (nextOff s) = diskBlockOf c (t :: btodo) ++ rest)
    (hlen : encLen (t :: btodo) ≤ BLOCK_SIZE)
    (hne : t ≠ []) :
    StorageReadTuple c s = .ok (some (padRow t),
      { loadedState c s (t :: btodo) (nextOff s) with cur_offset := encLen [t] }) := by
  have htpos : 0 < t.length := List.length_pos.mpr hne
  have hmatch : MemMatches (loadedState c s (t :: btodo) (nextOff s)).cur_block.data
      (encodeTuples (t :: btodo)) := writeBytes_blockList_matches _ hlen
  have hmatch' : MemMatches (loadedState c s (t :: btodo) (nextOff s)).cur_block.data
      (encodeTuples ([] ++ t :: btodo)) := by
    simpa using hmatch
  have hlen' : encLen ([] ++ t :: btodo) ≤ BLOCK_SIZE := by simpa using hlen
  have hhdr1 : leToNat (readBytes
      (loadedState c s (t :: btodo) (nextOff s)).cur_block.data 0 StorageTupleHeaderSize)
      = MAXALIGN t.length := by
    have := header_value hmatch' hlen'
    rw [show encLen ([] : List (List Nat)) = 0 from rfl] at this
    exact this
  have hal0 : ¬ (MAXALIGN t.length = 0) := by
    have := MAXALIGN_pos htpos
    omega
  have hbody1 : readBytes (loadedState c s (t :: btodo) (nextOff s)).cur_block.data
      (0 + StorageTupleHeaderSize) (MAXALIGN t.length) = padRow t := by
    have := body_value hmatch' hlen'
    rw [show encLen ([] : List (List Nat)) = 0 from rfl] at this
    exact this
  rw [StorageReadTuple_load c s htrig,
    readTupleLoad_ok c (by rw [load_next_block_eq]; exact read_block_ok c s hm hdrop hlen)]
  unfold readTupleHeaderAt
  rw [if_pos (by rw [StorageTupleHeaderSize_eq, BLOCK_SIZE_eq]; omega), sres_bind_ok,
    hhdr1, if_neg hal0]
  unfold readTupleFinish
  show Except.ok (some (readBytes (loadedState c s (t :: btodo) (nextOff s)).cur_block.data
      (0 + StorageTupleHeaderSize) (MAXALIGN t.length)), _) = _
  rw [hbody1]
  have hco : (loadedState c s (t :: btodo) (nextOff s)).cur_offset = 0 := rfl
  rw [hco, show (0 : Nat) + MAXALIGN t.length + StorageTupleHeaderSize = encLen [t] by
    rw [encLen_singleton, tlen_eq, StorageTupleHeaderSize_eq]; omega]

/-- A block the reader can traverse: nonempty, nonempty rows, and not
    exactly full (the end sentinel must fit, see the `cur_offset` TODO in
    `StorageReadTuple`). -/
def GoodBlock (b : List (List Nat)) : Prop :=
  b ≠ [] ∧ (∀ t ∈ b, t ≠ []) ∧ encLen b + StorageTupleHeaderSize ≤ BLOCK_SIZE

theorem readTuples_chain (c : Codec) (bs : List (List (List Nat))) :
    ∀ (s : StorageState),
      s.mmaped = none → (∀ b ∈ bs, GoodBlock b) → LoadTrigger s →
      s.file.drop (nextOff s) = chainOf c bs →
      ∃ sEnd, readTuples c s bs.flatten.length
          = .ok (bs.flatten.map padRow, sEnd) ∧
        StorageReadTuple c sEnd = .ok (none, sEnd) := by
  induction bs with
  | nil =>
    intro s hm _ htrig hdrop
    refine ⟨s, rfl, ?_⟩
    rw [StorageReadTuple_load c s htrig]
    apply readTupleLoad_fail c s hm
    have h1 := congrArg List.length hdrop
    rw [List.length_drop] at h1
    simp [chainOf] at h1
    omega
  | cons b bs ih =>
    intro s hm hgood htrig hdrop
    obtain ⟨hbne, hrows, hblen⟩ := hgood b (by simp)
    obtain ⟨t, btodo, rfl⟩ := List.exists_cons_of_ne_nil hbne
    rw [chainOf_cons] at hdrop
    have hlen : encLen (t :: btodo) ≤ BLOCK_SIZE := by
      rw [StorageTupleHeaderSize_eq] at hblen
      omega
    have hEq1 : encLen ([t] ++ btodo) = encLen (t :: btodo) := by
      rw [encLen_append, encLen_singleton, encLen_cons]
    have hstep := StorageReadTuple_load_first c hm htrig hdrop hlen (hrows t (by simp))
    have h1 : readTuples c s 1
        = .ok ([padRow t], { loadedState c s (t :: btodo) (nextOff s) with
            cur_offset := encLen [t] }) := by
      rw [show (1 : Nat) = 0 + 1 from rfl, readTuples_succ_some c hstep]
      rfl
    have hmatchL : MemMatches ({ loadedState c s (t :: btodo) (nextOff s) with
        cur_offset := encLen [t] }).cur_block.data (encodeTuples ([t] ++ btodo)) := by
      show MemMatches (writeBytes s.cur_block.data 0 (blockList (t :: btodo))) _
      rw [show ([t] ++ btodo : List (List Nat)) = t :: btodo by simp]
      exact writeBytes_blockList_matches _ hlen
    have hinb := readTuples_inblock c btodo [t]
      { loadedState c s (t :: btodo) (nextOff s) with cur_offset := encLen [t] }
      rfl hmatchL rfl
      (by rw [show ([t] ++ btodo : List (List Nat)) = t :: btodo by simp]; exact hlen)
      (fun u hu => hrows u (by simp [hu]))
    have hfirst := readTuples_add c 1 btodo.length s [padRow t] _ h1 rfl _ _ hinb
    have hhdr0 : leToNat (readBytes (writeBytes s.cur_block.data 0 (blockList (t :: btodo)))
        (encLen ([t] ++ btodo)) StorageTupleHeaderSize) = 0 := by
      rw [readBytes_matches (writeBytes_blockList_matches _ hlen)
        (by rw [hEq1, StorageTupleHeaderSize_eq] at *; omega)]
      rw [hEq1]
      apply readBytes_past_encoded
      rw [length_encodeTuples]
    have htrigB : LoadTrigger ({ { loadedState c s (t :: btodo) (nextOff s) with
        cur_offset := encLen [t] } with cur_offset := encLen ([t] ++ btodo) }) := by
      refine Or.inr ⟨?_, ?_⟩
      · show encLen ([t] ++ btodo) + StorageTupleHeaderSize ≤ BLOCK_SIZE
        rw [hEq1]
        exact hblen
      · exact hhdr0
    have hnoB : nextOff ({ { loadedState c s (t :: btodo) (nextOff s) with
        cur_offset := encLen [t] } with cur_offset := encLen ([t] ++ btodo) })
        = nextOff s + StorageBlockHeaderSize + (c.comp (blockList (t :: btodo))).length := by
      unfold nextOff
      rw [if_neg (by simp [loadedState])]
      rfl
    have hdropB : ({ { loadedState c s (t :: btodo) (nextOff s) with
        cur_offset := encLen [t] } with cur_offset := encLen ([t] ++ btodo) }).file.drop
          (nextOff ({ { loadedState c s (t :: btodo) (nextOff s) with
            cur_offset := encLen [t] } with cur_offset := encLen ([t] ++ btodo) }))
        = chainOf c bs := by
      rw [hnoB]
      show s.file.drop _ = _
      rw [Nat.add_assoc, ← List.drop_drop, hdrop,
        drop_append_exact _ _ (length_diskBlockOf c (t :: btodo)).symm]
    obtain ⟨sEnd, hrest, hend⟩ := ih _ (by show s.mmaped = none; exact hm)
      (fun u hu => hgood u (by simp [hu])) htrigB hdropB
    have htotal := readTuples_add c (1 + btodo.length) bs.flatten.length s
      ([padRow t] ++ btodo.map padRow) _ hfirst
      (by simp only [List.length_append, List.length_map, List.length_singleton])
      _ _ hrest
    refine ⟨sEnd, ?_, hend⟩
    rw [show ((t :: btodo) :: bs).flatten.length = 1 + btodo.length + bs.flatten.length by
      simp
      omega]
    rw [htotal]
    have hlist : ([padRow t] ++ btodo.map padRow) ++ bs.flatten.map padRow
        = ((t :: btodo) :: bs).flatten.map padRow := by
      simp
    rw [hlist]

/-! ## Packing facts and the end-to-end round trip -/

theorem packGo_flatten (ts : List (List Nat)) :
    ∀ cur : List (List Nat),
      ((packGo cur ts).1).flatten ++ (packGo cur ts).2 = cur ++ ts := by
  induction ts with
  | nil => intro cur; simp [packGo]
  | cons t ts ih =>
    intro cur
    by_cases hov : BLOCK_SIZE < encLen cur + tlen t
    · simp only [packGo, if_pos hov, List.flatten_cons]
      rw [List.append_assoc, ih [t]]
      simp
    · simp only [packGo, if_neg hov]
      rw [ih (cur ++ [t])]
      simp

theorem packAll_flatten (ts : List (List Nat)) : (packAll ts).flatten = ts := by
  cases ts with
  | nil => rfl
  | cons t ts =>
    show ((packGo [t] ts).1 ++ [(packGo [t] ts).2]).flatten = t :: ts
    rw [List.flatten_append]
    simp only [List.flatten_cons, List.flatten_nil, List.append_nil]
    rw [packGo_flatten ts [t]]
    simp

theorem packGo_ne_nil (ts : List (List Nat)) :
    ∀ cur : List (List Nat), cur ≠ [] →
      (∀ b ∈ (packGo cur ts).1, b ≠ []) ∧ (packGo cur ts).2 ≠ [] := by
  induction ts with
  | nil => intro cur hc; simpa [packGo] using hc
  | cons t ts ih =>
    intro cur hc
    by_cases hov : BLOCK_SIZE < encLen cur + tlen t
    · simp only [packGo, if_pos hov]
      obtain ⟨h1, h2⟩ := ih [t] (by simp)
      exact ⟨by
        intro b hb
        rcases List.mem_cons.mp hb with rfl | hb
        · exact hc
        · exact h1 b hb, h2⟩
    · simp only [packGo, if_neg hov]
      exact ih (cur ++ [t]) (by simp)

theorem packAll_ne_nil {ts : List (List Nat)} {b : List (List Nat)}
    (hb : b ∈ packAll ts) : b ≠ [] := by
  cases ts with
  | nil => simp [packAll] at hb
  | cons t ts =>
    obtain ⟨h1, h2⟩ := packGo_ne_nil ts [t] (by simp)
    rcases List.mem_append.mp hb with hb | hb
    · exact h1 b hb
    · rw [List.mem_singleton.mp hb]
      exact h2

theorem packAll_rows_mem {ts : List (List Nat)} {b : List (List Nat)} {t : List Nat}
    (hb : b ∈ packAll ts) (ht : t ∈ b) : t ∈ ts := by
  rw [← packAll_flatten ts]
  exact List.mem_flatten.mpr ⟨b, hb, ht⟩

/-- The state `StorageInit` produces on a nonempty file opened read-only
    without mmap. -/
theorem StorageInit_read (d : List Nat) (h : ¬ (d.length = 0)) :
    StorageInit d true false = .ok
      { file := d, readonly := true, mmaped := none,
        last_block_offset := leToNat (bytesD d 0 8),
        cur_block := ⟨.BS_INVALID, 0, 0, memZero⟩, cur_offset := 0 } := by
  unfold StorageInit read_storage_file_header
  simp only [if_neg h, Bool.false_eq_true, if_false]

/-- Reading from a fresh handle on a file whose bytes after the header form
    a chain of good blocks yields the padded rows and then end of data. -/
theorem readTuples_from_start (c : Codec) (bs : List (List (List Nat)))
    (s : StorageState) (hm : s.mmaped = none)
    (hst : s.cur_block.status = .BS_INVALID)
    (hfile : s.file.drop StorageFileHeaderSize = chainOf c bs)
    (hgood : ∀ b ∈ bs, GoodBlock b) :
    ∃ sEnd, readTuples c s bs.flatten.length = .ok (bs.flatten.map padRow, sEnd) ∧
      StorageReadTuple c sEnd = .ok (none, sEnd) := by
  apply readTuples_chain c bs s hm hgood (Or.inl hst)
  rw [show nextOff s = StorageFileHeaderSize by unfold nextOff; rw [if_pos hst]]
  exact hfile

/-- Main round-trip lemma: writing rows on a fresh file and reading them
    back from a fresh buffered handle returns every row zero-padded to its
    MAXALIGN length, in order, followed by a stable end-of-data signal. -/
theorem writeThenRead_rows (c : Codec) (ts : List (List Nat))
    (hne : ∀ t ∈ ts, t ≠ [])
    (hfit : ∀ t ∈ ts, tlen t ≤ BLOCK_SIZE)
    (hfull : ∀ b ∈ packAll ts, encLen b + StorageTupleHeaderSize ≤ BLOCK_SIZE) :
    ∀ k, ∃ sEnd, writeThenRead c ts (ts.length + k) = .ok (ts.map padRow, sEnd) := by
  intro k
  obtain ⟨sR, hW, hWfile⟩ := writeFile_disk c ts hfit
  have hd0 : ¬ (sR.file.length = 0) := by
    rw [hWfile]
    simp [length_natToLE]
  have hgood : ∀ b ∈ packAll ts, GoodBlock b := by
    intro b hb
    exact ⟨packAll_ne_nil hb, fun t ht => hne t (packAll_rows_mem hb ht), hfull b hb⟩
  obtain ⟨sEnd, hread, hend⟩ := readTuples_from_start c (packAll ts)
    { file := sR.file, readonly := true, mmaped := none,
      last_block_offset := leToNat (bytesD sR.file 0 8),
      cur_block := ⟨.BS_INVALID, 0, 0, memZero⟩, cur_offset := 0 }
    rfl rfl
    (by
      show sR.file.drop StorageFileHeaderSize = _
      rw [hWfile, drop_append_exact _ _ (by rw [length_natToLE, StorageFileHeaderSize_eq])])
    hgood
  rw [packAll_flatten] at hread
  have hreadk := readTuples_add c ts.length k _ _ _ hread (by simp) [] sEnd
    (readTuples_none c hend k)
  refine ⟨sEnd, ?_⟩
  unfold writeThenRead
  rw [hW, sres_bind_ok, StorageInit_read sR.file hd0, sres_bind_ok, hreadk]
  simp

/-! ## An identity codec for concrete instantiations -/

/-- An identity codec to instantiate the development on concrete inputs:
    `comp` is the identity, `decomp` accepts exactly the `BLOCK_SIZE`-byte
    buffers the writer compresses. -/
def idCodec : Codec where
  comp := fun l => l
  decomp := fun l => if l.length = BLOCK_SIZE then some l else none
  comp_pos := fun b hb => by
    show 0 < b.length
    rw [hb]
    norm_num [BLOCK_SIZE]
  comp_lt := fun b hb => by
    show b.length < 2 ^ 31
    rw [hb]
    norm_num [BLOCK_SIZE]
  round := fun b hb => by
    show (if b.length = BLOCK_SIZE then some b else none) = some b
    rw [if_pos hb]

/-! ## Packing facts for cumulative sizes within one block -/

/-- When everything fits in the current block, the greedy packing never
    flushes: all rows stay in the one block. -/
theorem packGo_single (ts : List (List Nat)) :
    ∀ cur, encLen (cur ++ ts) ≤ BLOCK_SIZE → packGo cur ts = ([], cur ++ ts) := by
  induction ts with
  | nil => intro cur _; simp [packGo]
  | cons t ts ih =>
    intro cur h
    rw [encLen_append, encLen_cons] at h
    unfold packGo
    rw [if_neg (by omega)]
    have hih := ih (cur ++ [t]) (by
      rw [encLen_append, encLen_append, encLen_singleton]
      omega)
    rw [hih]
    simp

/-! ## Frame lemmas: the read path never writes the file -/

/-- `read_block` leaves the file and the mapping untouched and only ever
    moves the block status to `BS_LOADED`. -/
theorem read_block_frame (c : Codec) (s : StorageState) (off : Nat) :
    ∀ r, read_block c s off = .ok r →
      r.2.file = s.file ∧ r.2.mmaped = s.mmaped ∧
      (r.2.cur_block.status = s.cur_block.status ∨
        r.2.cur_block.status = .BS_LOADED) := by
  intro r h
  rw [read_block] at h
  split at h
  · cases h
    exact ⟨rfl, rfl, Or.inl rfl⟩
  · split at h
    · cases h
    · split at h
      · cases h
      · cases h
        exact ⟨rfl, rfl, Or.inr rfl⟩

/-- `readTupleLoad` leaves the file and the mapping untouched and only ever
    moves the block status to `BS_LOADED`. -/
theorem readTupleLoad_frame (c : Codec) (s : StorageState) :
    ∀ r, readTupleLoad c s = .ok r →
      r.2.file = s.file ∧ r.2.mmaped = s.mmaped ∧
      (r.2.cur_block.status = s.cur_block.status ∨
        r.2.cur_block.status = .BS_LOADED) := by
  intro r h
  rw [readTupleLoad] at h
  cases hl : load_next_block c s with
  | error e =>
    rw [hl, sres_bind_err] at h
    cases h
  | ok br =>
    obtain ⟨b, s'⟩ := br
    have hf := read_block_frame c s (nextOff s) (b, s')
      (by rw [← load_next_block_eq]; exact hl)
    rw [hl, sres_bind_ok] at h
    dsimp only at h
    cases b with
    | false =>
      rw [if_neg (by simp)] at h
      cases h
      exact hf
    | true =>
      rw [if_pos rfl] at h
      rw [readTupleHeaderAt] at h
      split at h
      · rw [sres_bind_ok] at h
        split at h
        · cases h
          exact hf
        · cases h
          exact hf
      · rw [sres_bind_err] at h
        cases h

/-- `StorageReadTuple` leaves the file and the mapping untouched and only
    ever moves the block status to `BS_LOADED`. -/
theorem StorageReadTuple_frame (c : Codec) (s : StorageState) :
    ∀ r, StorageReadTuple c s = .ok r →
      r.2.file = s.file ∧ r.2.mmaped = s.mmaped ∧
      (r.2.cur_block.status = s.cur_block.status ∨
        r.2.cur_block.status = .BS_LOADED) := by
  intro r h
  rw [StorageReadTuple] at h
  split at h
  · exact readTupleLoad_frame c s r h
  · rw [readTupleHeaderAt] at h
    split at h
    · rw [sres_bind_ok] at h
      split at h
      · exact readTupleLoad_frame c s r h
      · cases h
        exact ⟨rfl, rfl, Or.inl rfl⟩
    · rw [sres_bind_err] at h
      cases h

/-- `readTuples` leaves the file and the mapping untouched and only ever
    moves the block status to `BS_LOADED`. -/
theorem readTuples_frame (c : Codec) (n : Nat) :
    ∀ s r, readTuples c s n = .ok r →
      r.2.file = s.file ∧ r.2.mmaped = s.mmaped ∧
      (r.2.cur_block.status = s.cur_block.status ∨
        r.2.cur_block.status = .BS_LOADED) := by
  induction n with
  | zero =>
    intro s r h
    cases h
    exact ⟨rfl, rfl, Or.inl rfl⟩
  | succ n ih =>
    intro s r h
    rw [show readTuples c s (n + 1)
        = Bind.bind (StorageReadTuple c s) (fun x =>
            match x.1 with
            | none => .ok ([], x.2)
            | some t => Bind.bind (readTuples c x.2 n) fun y => .ok (t :: y.1, y.2))
      from rfl] at h
    cases h1 : StorageReadTuple c s with
    | error e =>
      rw [h1, sres_bind_err] at h
      cases h
    | ok x =>
      obtain ⟨t?, s'⟩ := x
      have hf1 := StorageReadTuple_frame c s (t?, s') h1
      rw [h1, sres_bind_ok] at h
      cases t? with
      | none =>
        dsimp only at h
        cases h
        exact hf1
      | some t =>
        dsimp only at h
        cases h2 : readTuples c s' n with
        | error e =>
          rw [h2, sres_bind_err] at h
          cases h
        | ok y =>
          have hf2 := ih s' y h2
          rw [h2, sres_bind_ok] at h
          cases h
          refine ⟨hf2.1.trans hf1.1, hf2.2.1.trans hf1.2.1, ?_⟩
          rcases hf2.2.2 with h3 | h3
          · rw [h3]
            exact hf1.2.2
          · exact Or.inr h3

/-! ## The memory-mapped read path -/

theorem drop_add (l : List Nat) (a b : Nat) : l.drop (a + b) = (l.drop a).drop b := by
  rw [List.drop_drop, Nat.add_comm]

theorem bytesD_of_le {l : List Nat} {off n : Nat} (h : off + n ≤ l.length) :
    bytesD l off n = (l.drop off).take n := by
  apply List.ext_getElem
  · simp only [bytesD, List.length_map, List.length_range, List.length_take,
      List.length_drop]
    omega
  · intro i h1 h2
    simp only [bytesD, List.length_map, List.length_range] at h1
    simp only [bytesD, List.getElem_map, List.getElem_range]
    rw [List.getElem_take, List.getElem_drop]
    exact List.getD_eq_getElem l 0 (by omega)

/-- `read_block` through the memory mapping: same behaviour as the buffered
    path on a well-placed block. -/
theorem read_block_ok_mmap (c : Codec) (s : StorageState) {m : List Nat}
    {b : List (List Nat)} {off : Nat} {rest : List Nat}
    (hm : s.mmaped = some m)
    (hdrop : m.drop off = diskBlockOf c b ++ rest)
    (hlen : encLen b ≤ BLOCK_SIZE) :
    read_block c s off = .ok (true, loadedState c s b off) := by
  have hBL : (blockList b).length = BLOCK_SIZE := length_blockList hlen
  have hplt : (c.comp (blockList b)).length < 2 ^ 31 := c.comp_lt _ hBL
  have hdlen : (diskBlockOf c b).length
      = StorageBlockHeaderSize + (c.comp (blockList b)).length := length_diskBlockOf c b
  have hoffle : off + StorageBlockHeaderSize + (c.comp (blockList b)).length
      ≤ m.length := by
    by_cases hc : off ≤ m.length
    · have h1 := congrArg List.length hdrop
      rw [List.length_drop] at h1
      simp only [List.length_append, hdlen] at h1
      omega
    · exfalso
      have hnil : m.drop off = [] := List.drop_eq_nil_of_le (by omega)
      rw [hnil] at hdrop
      have h2 := congrArg List.length hdrop
      simp only [List.length_nil, List.length_append, hdlen,
        StorageBlockHeaderSize_eq] at h2
      omega
  have hA : m.drop off
      = natToLE 4 (c.comp (blockList b)).length
        ++ (natToLE 4 (crc32c (c.comp (blockList b)))
            ++ (c.comp (blockList b) ++ rest)) := by
    rw [hdrop]
    simp [diskBlockOf]
  have hguard : ¬ (m.length ≤ off) := by
    rw [StorageBlockHeaderSize_eq] at hoffle
    omega
  have hd4 : m.drop (off + 4)
      = natToLE 4 (crc32c (c.comp (blockList b))) ++ (c.comp (blockList b) ++ rest) := by
    rw [drop_add, hA, drop_append_exact _ _ (by simp [length_natToLE])]
  have hd8 : m.drop (off + StorageBlockHeaderSize) = c.comp (blockList b) ++ rest := by
    rw [drop_add, hA, ← List.append_assoc]
    rw [drop_append_exact _ _ (by simp [length_natToLE, StorageBlockHeaderSize_eq])]
  have hcs : bytesD m off 4 = natToLE 4 (c.comp (blockList b)).length := by
    rw [bytesD_of_le (by rw [StorageBlockHeaderSize_eq] at hoffle; omega), hA,
      take_append_exact _ _ (by simp [length_natToLE])]
  have hcsize : leToNat (natToLE 4 (c.comp (blockList b)).length)
      = (c.comp (blockList b)).length := by
    apply leToNat_natToLE
    calc (c.comp (blockList b)).length < 2 ^ 31 := hplt
      _ < 256 ^ 4 := by norm_num
  have hcrc : bytesD m (off + 4) 4 = natToLE 4 (crc32c (c.comp (blockList b))) := by
    rw [bytesD_of_le (by rw [StorageBlockHeaderSize_eq] at hoffle; omega), hd4,
      take_append_exact _ _ (by simp [length_natToLE])]
  have hstored : leToNat (natToLE 4 (crc32c (c.comp (blockList b))))
      = crc32c (c.comp (blockList b)) := by
    apply leToNat_natToLE
    calc crc32c (c.comp (blockList b)) < 2 ^ 32 := crc32c_lt _
      _ = 256 ^ 4 := by norm_num
  have hpay : bytesD m (off + StorageBlockHeaderSize) (c.comp (blockList b)).length
      = c.comp (blockList b) := by
    rw [bytesD_of_le (by omega), hd8, take_append_exact _ _ rfl]
  unfold read_block
  simp only [hm, if_neg hguard, hcs, hcsize, hcrc, hstored, hpay]
  rw [if_neg (by simp)]
  simp only [c.round _ hBL]
  simp [loadedState, hm]

/-- A `load_next_block` through the mapping that starts at or past the end
    of the mapping reports end of data. -/
theorem readTupleLoad_fail_mmap (c : Codec) (s : StorageState) {m : List Nat}
    (hm : s.mmaped = some m) (hend : m.length ≤ nextOff s) :
    readTupleLoad c s = .ok (none, s) := by
  unfold readTupleLoad
  rw [load_next_block_eq]
  unfold read_block
  simp only [hm, if_pos hend]
  rfl

/-- First read through the mapping from a load trigger: loads the block at
    `nextOff` and returns its first record. -/
theorem StorageReadTuple_load_first_mmap (c : Codec) {s : StorageState}
    {m : List Nat} {t : List Nat} {btodo : List (List Nat)} {rest : List Nat}
    (hm : s.mmaped = some m) (htrig : LoadTrigger s)
    (hdrop : m.drop (nextOff s) = diskBlockOf c (t :: btodo) ++ rest)
    (hlen : encLen (t :: btodo) ≤ BLOCK_SIZE)
    (hne : t ≠ []) :
    StorageReadTuple c s = .ok (some (padRow t),
      { loadedState c s (t :: btodo) (nextOff s) with cur_offset := encLen [t] }) := by
  have htpos : 0 < t.length := List.length_pos.mpr hne
  have hmatch : MemMatches (loadedState c s (t :: btodo) (nextOff s)).cur_block.data
      (encodeTuples (t :: btodo)) := writeBytes_blockList_matches _ hlen
  have hmatch' : MemMatches (loadedState c s (t :: btodo) (nextOff s)).cur_block.data
      (encodeTuples ([] ++ t :: btodo)) := by
    simpa using hmatch
  have hlen' : encLen ([] ++ t :: btodo) ≤ BLOCK_SIZE := by simpa using hlen
  have hhdr1 : leToNat (readBytes
      (loadedState c s (t :: btodo) (nextOff s)).cur_block.data 0 StorageTupleHeaderSize)
      = MAXALIGN t.length := by
    have := header_value hmatch' hlen'
    rw [show encLen ([] : List (List Nat)) = 0 from rfl] at this
    exact this
  have hal0 : ¬ (MAXALIGN t.length = 0) := by
    have := MAXALIGN_pos htpos
    omega
  have hbody1 : readBytes (loadedState c s (t :: btodo) (nextOff s)).cur_block.data
      (0 + StorageTupleHeaderSize) (MAXALIGN t.length) = padRow t := by
    have := body_value hmatch' hlen'
    rw [show encLen ([] : List (List Nat)) = 0 from rfl] at this
    exact this
  rw [StorageReadTuple_load c s htrig,
    readTupleLoad_ok c (by
      rw [load_next_block_eq]
      exact read_block_ok_mmap c s hm hdrop hlen)]
  unfold readTupleHeaderAt
  rw [if_pos (by rw [StorageTupleHeaderSize_eq, BLOCK_SIZE_eq]; omega), sres_bind_ok,
    hhdr1, if_neg hal0]
  unfold readTupleFinish
  show Except.ok (some (readBytes (loadedState c s (t :: btodo) (nextOff s)).cur_block.data
      (0 + StorageTupleHeaderSize) (MAXALIGN t.length)), _) = _
  rw [hbody1]
  have hco : (loadedState c s (t :: btodo) (nextOff s)).cur_offset = 0 := rfl
  rw [hco, show (0 : Nat) + MAXALIGN t.length + StorageTupleHeaderSize = encLen [t] by
    rw [encLen_singleton, tlen_eq, StorageTupleHeaderSize_eq]; omega]

/-- The chain traversal through the memory mapping: same rows, same
    end-of-data point as the buffered path. -/
theorem readTuples_chain_mmap (c : Codec) (bs : List (List (List Nat))) :
    ∀ (s : StorageState),
      s.mmaped = some s.file → (∀ b ∈ bs, GoodBlock b) → LoadTrigger s →
      s.file.drop (nextOff s) = chainOf c bs →
      ∃ sEnd, readTuples c s bs.flatten.length
          = .ok (bs.flatten.map padRow, sEnd) ∧
        StorageReadTuple c sEnd = .ok (none, sEnd) := by
  induction bs with
  | nil =>
    intro s hm _ htrig hdrop
    refine ⟨s, rfl, ?_⟩
    rw [StorageReadTuple_load c s htrig]
    apply readTupleLoad_fail_mmap c s hm
    have h1 := congrArg List.length hdrop
    rw [List.length_drop] at h1
    simp [chainOf] at h1
    omega
  | cons b bs ih =>
    intro s hm hgood htrig hdrop
    obtain ⟨hbne, hrows, hblen⟩ := hgood b (by simp)
    obtain ⟨t, btodo, rfl⟩ := List.exists_cons_of_ne_nil hbne
    rw [chainOf_cons] at hdrop
    have hlen : encLen (t :: btodo) ≤ BLOCK_SIZE := by
      rw [StorageTupleHeaderSize_eq] at hblen
      omega
    have hEq1 : encLen ([t] ++ btodo) = encLen (t :: btodo) := by
      rw [encLen_append, encLen_singleton, encLen_cons]
    have hstep := StorageReadTuple_load_first_mmap c hm htrig hdrop hlen (hrows t (by simp))
    have h1 : readTuples c s 1
        = .ok ([padRow t], { loadedState c s (t :: btodo) (nextOff s) with
            cur_offset := encLen [t] }) := by
      rw [show (1 : Nat) = 0 + 1 from rfl, readTuples_succ_some c hstep]
      rfl
    have hmatchL : MemMatches ({ loadedState c s (t :: btodo) (nextOff s) with
        cur_offset := encLen [t] }).cur_block.data (encodeTuples ([t] ++ btodo)) := by
      show MemMatches (writeBytes s.cur_block.data 0 (blockList (t :: btodo))) _
      rw [show ([t] ++ btodo : List (List Nat)) = t :: btodo by simp]
      exact writeBytes_blockList_matches _ hlen
    have hinb := readTuples_inblock c btodo [t]
      { loadedState c s (t :: btodo) (nextOff s) with cur_offset := encLen [t] }
      rfl hmatchL rfl
      (by rw [show ([t] ++ btodo : List (List Nat)) = t :: btodo by simp]; exact hlen)
      (fun u hu => hrows u (by simp [hu]))
    have hfirst := readTuples_add c 1 btodo.length s [padRow t] _ h1 rfl _ _ hinb
    have hhdr0 : leToNat (readBytes (writeBytes s.cur_block.data 0 (blockList (t :: btodo)))
        (encLen ([t] ++ btodo)) StorageTupleHeaderSize) = 0 := by
      rw [readBytes_matches (writeBytes_blockList_matches _ hlen)
        (by rw [hEq1, StorageTupleHeaderSize_eq] at *; omega)]
      rw [hEq1]
      apply readBytes_past_encoded
      rw [length_encodeTuples]
    have htrigB : LoadTrigger ({ { loadedState c s (t :: btodo) (nextOff s) with
        cur_offset := encLen [t] } with cur_offset := encLen ([t] ++ btodo) }) := by
      refine Or.inr ⟨?_, ?_⟩
      · show encLen ([t] ++ btodo) + StorageTupleHeaderSize ≤ BLOCK_SIZE
        rw [hEq1]
        exact hblen
      · exact hhdr0
    have hnoB : nextOff ({ { loadedState c s (t :: btodo) (nextOff s) with
        cur_offset := encLen [t] } with cur_offset := encLen ([t] ++ btodo) })
        = nextOff s + StorageBlockHeaderSize + (c.comp (blockList (t :: btodo))).length := by
      unfold nextOff
      rw [if_neg (by simp [loadedState])]
      rfl
    have hdropB : ({ { loadedState c s (t :: btodo) (nextOff s) with
        cur_offset := encLen [t] } with cur_offset := encLen ([t] ++ btodo) }).file.drop
          (nextOff ({ { loadedState c s (t :: btodo) (nextOff s) with
            cur_offset := encLen [t] } with cur_offset := encLen ([t] ++ btodo) }))
        = chainOf c bs := by
      rw [hnoB]
      show s.file.drop _ = _
      rw [Nat.add_assoc, ← List.drop_drop, hdrop,
        drop_append_exact _ _ (length_diskBlockOf c (t :: btodo)).symm]
    obtain ⟨sEnd, hrest, hend⟩ := ih _
      (by show s.mmaped = some s.file; exact hm)
      (fun u hu => hgood u (by simp [hu])) htrigB hdropB
    have htotal := readTuples_add c (1 + btodo.length) bs.flatten.length s
      ([padRow t] ++ btodo.map padRow) _ hfirst
      (by simp only [List.length_append, List.length_map, List.length_singleton])
      _ _ hrest
    refine ⟨sEnd, ?_, hend⟩
    rw [show ((t :: btodo) :: bs).flatten.length = 1 + btodo.length + bs.flatten.length by
      simp
      omega]
    rw [htotal]
    have hlist : ([padRow t] ++ btodo.map padRow) ++ bs.flatten.map padRow
        = ((t :: btodo) :: bs).flatten.map padRow := by
      simp
    rw [hlist]

/-- The state `StorageInit` produces on a nonempty file opened read-only
    with mmap. -/
theorem StorageInit_read_mmap (d : List Nat) (h : ¬ (d.length = 0)) :
    StorageInit d true true = .ok
      { file := d, readonly := true, mmaped := some d,
        last_block_offset := leToNat (bytesD d 0 8),
        cur_block := ⟨.BS_INVALID, 0, 0, memZero⟩, cur_offset := 0 } := by
  unfold StorageInit read_storage_file_header
  rw [if_pos rfl, if_neg h]

/-- Reading from a fresh mmap handle on a file whose bytes after the header
    form a chain of good blocks yields the padded rows and end of data. -/
theorem readTuples_from_start_mmap (c : Codec) (bs : List (List (List Nat)))
    (s : StorageState) (hm : s.mmaped = some s.file)
    (hst : s.cur_block.status = .BS_INVALID)
    (hfile : s.file.drop StorageFileHeaderSize = chainOf c bs)
    (hgood : ∀ b ∈ bs, GoodBlock b) :
    ∃ sEnd, readTuples c s bs.flatten.length = .ok (bs.flatten.map padRow, sEnd) ∧
      StorageReadTuple c sEnd = .ok (none, sEnd) := by
  apply readTuples_chain_mmap c bs s hm hgood (Or.inl hst)
  rw [show nextOff s = StorageFileHeaderSize by unfold nextOff; rw [if_pos hst]]
  exact hfile

theorem scanRows_eq_of (c : Codec) {d : List Nat} {um : Bool} {n : Nat}
    {s : StorageState} {r : List (List Nat) × StorageState}
    (hinit : StorageInit d true um = .ok s) (hread : readTuples c s n = .ok r) :
    scanRows c d um n = .ok r.1 := by
  unfold scanRows
  simp only [hinit, hread]

/-- A read-only scan over a writer-produced file returns every inserted row
    zero-padded, through either the buffered or the memory-mapped path. -/
theorem scanRows_writer (c : Codec) (ts : List (List Nat))
    (hne : ∀ t ∈ ts, t ≠ [])
    (hfit : ∀ t ∈ ts, tlen t ≤ BLOCK_SIZE)
    (hfull : ∀ b ∈ packAll ts, encLen b + StorageTupleHeaderSize ≤ BLOCK_SIZE) :
    ∀ (um : Bool) (k : Nat),
      scanRows c (natToLE 8 (lboOf c (packAll ts)) ++ chainOf c (packAll ts)) um
        (ts.length + k) = .ok (ts.map padRow) := by
  intro um k
  have hd0 : ¬ ((natToLE 8 (lboOf c (packAll ts)) ++ chainOf c (packAll ts)).length = 0) := by
    simp [length_natToLE]
  have hgood : ∀ b ∈ packAll ts, GoodBlock b := by
    intro b hb
    exact ⟨packAll_ne_nil hb, fun t ht => hne t (packAll_rows_mem hb ht), hfull b hb⟩
  have hdrop : (natToLE 8 (lboOf c (packAll ts)) ++ chainOf c (packAll ts)).drop
      StorageFileHeaderSize = chainOf c (packAll ts) :=
    drop_append_exact _ _ (by rw [length_natToLE, StorageFileHeaderSize_eq])
  cases um with
  | false =>
    obtain ⟨sEnd, hread, hend⟩ := readTuples_from_start c (packAll ts)
      { file := natToLE 8 (lboOf c (packAll ts)) ++ chainOf c (packAll ts),
        readonly := true, mmaped := none,
        last_block_offset := leToNat
          (bytesD (natToLE 8 (lboOf c (packAll ts)) ++ chainOf c (packAll ts)) 0 8),
        cur_block := ⟨.BS_INVALID, 0, 0, memZero⟩, cur_offset := 0 }
      rfl rfl hdrop hgood
    rw [packAll_flatten] at hread
    have hreadk := readTuples_add c ts.length k _ _ _ hread (by simp) [] sEnd
      (readTuples_none c hend k)
    have := scanRows_eq_of c (StorageInit_read _ hd0) hreadk
    simpa using this
  | true =>
    obtain ⟨sEnd, hread, hend⟩ := readTuples_from_start_mmap c (packAll ts)
      { file := natToLE 8 (lboOf c (packAll ts)) ++ chainOf c (packAll ts),
        readonly := true,
        mmaped := some (natToLE 8 (lboOf c (packAll ts)) ++ chainOf c (packAll ts)),
        last_block_offset := leToNat
          (bytesD (natToLE 8 (lboOf c (packAll ts)) ++ chainOf c (packAll ts)) 0 8),
        cur_block := ⟨.BS_INVALID, 0, 0, memZero⟩, cur_offset := 0 }
      rfl rfl hdrop hgood
    rw [packAll_flatten] at hread
    have hreadk := readTuples_add c ts.length k _ _ _ hread (by simp) [] sEnd
      (readTuples_none c hend k)
    have := scanRows_eq_of c (StorageInit_read_mmap _ hd0) hreadk
    simpa using this

/-- Filling a block to exactly `BLOCK_SIZE` keeps all rows in the first
    block (at the offset right after the file header, with nothing flushed
    yet); the next insert flushes it and allocates a block at the prior
    offset plus block header size plus compressed size. -/
theorem insert_exact_fill_roll (c : Codec) (u : List Nat) (us : List (List Nat))
    (t : List Nat)
    (hfit : ∀ v ∈ u :: us, tlen v ≤ BLOCK_SIZE)
    (hsum : encLen (u :: us) = BLOCK_SIZE)
    (ht : tlen t ≤ BLOCK_SIZE) :
    ∃ s1, insertTuples c freshState (u :: us) = .ok s1 ∧
      s1.file = natToLE 8 StorageFileHeaderSize ∧
      s1.cur_block.offset = StorageFileHeaderSize ∧
      s1.cur_offset = BLOCK_SIZE ∧
      ∃ s2, StorageInsertTuple c s1 t = .ok s2 ∧
        s2.cur_block.offset = s1.cur_block.offset + StorageBlockHeaderSize
          + (c.comp (readBytes s1.cur_block.data 0 BLOCK_SIZE)).length ∧
        s2.cur_offset = tlen t := by
  obtain ⟨sA, hA, invA⟩ := insert_first c u (hfit u (by simp))
  obtain ⟨s1, h1, inv1⟩ := insertTuples_WInv c us invA (fun v hv => hfit v (by simp [hv]))
  have hp := packGo_single us [u] (by
    rw [show ([u] ++ us : List (List Nat)) = u :: us from rfl]
    omega)
  rw [hp] at inv1
  have inv1 : WInv c [] (u :: us) s1 := by simpa using inv1
  have hoff1 : s1.cur_block.offset = StorageFileHeaderSize := by
    rw [inv1.hoffset, chainOf_nil]
    simp
  have hfile1 : s1.file = natToLE 8 StorageFileHeaderSize := by
    rw [inv1.hfile, lboOf_nil, chainOf_nil, List.append_nil]
  have hcur1 : s1.cur_offset = BLOCK_SIZE := by
    rw [inv1.hcur, hsum]
  have hpay : readBytes s1.cur_block.data 0 BLOCK_SIZE = blockList (u :: us) := by
    rw [inv1.hdata, readBytes_memOfList_full (by rw [length_encodeTuples]; exact inv1.hlen)]
    rw [blockList]
  obtain ⟨s2, h2, inv2⟩ := insert_roll c inv1 t ht (by
    have := tlen_pos t
    omega)
  have hfull1 : insertTuples c freshState (u :: us) = .ok s1 := by
    show Bind.bind (StorageInsertTuple c freshState u) (fun s => insertTuples c s us)
      = .ok s1
    rw [hA, sres_bind_ok]
    exact h1
  refine ⟨s1, hfull1, hfile1, hoff1, hcur1, s2, h2, ?_, ?_⟩
  · rw [inv2.hoffset, hoff1, hpay]
    simp only [List.nil_append, chainOf_cons, chainOf_nil, List.append_nil]
    rw [length_diskBlockOf]
    omega
  · rw [inv2.hcur, encLen_singleton]

/-! ## Checksum detection of payload corruption -/

/-- On-disk bytes of a block whose compressed payload `p` had bit `i` of
    byte `j` flipped after the (correct) checksum was stored. -/
def corruptedAt (pre p post : List Nat) (j i : Nat) : List Nat :=
  pre ++ natToLE 4 p.length ++ natToLE 4 (crc32c p) ++ flipBit p j i ++ post

theorem length_flipBit (p : List Nat) (j i : Nat) :
    (flipBit p j i).length = p.length := by
  simp [flipBit]

theorem corruptedAt_drop (pre p post : List Nat) (j i : Nat) :
    (corruptedAt pre p post j i).drop pre.length
      = (natToLE 4 p.length ++ natToLE 4 (crc32c p)) ++ (flipBit p j i ++ post) := by
  unfold corruptedAt
  rw [show pre ++ natToLE 4 p.length ++ natToLE 4 (crc32c p) ++ flipBit p j i ++ post
      = pre ++ ((natToLE 4 p.length ++ natToLE 4 (crc32c p)) ++ (flipBit p j i ++ post))
    by simp]
  rw [drop_append_exact _ _ rfl]

theorem corruptedAt_length (pre p post : List Nat) (j i : Nat) :
    (corruptedAt pre p post j i).length
      = pre.length + 8 + p.length + post.length := by
  simp [corruptedAt, length_natToLE, length_flipBit]
  omega

/-- `read_block` on a block whose stored checksum matches the original
    payload but whose payload has one flipped bit fails with the
    wrong-checksum corruption error, on both I/O paths. -/
theorem read_block_corrupted (c : Codec) (pre p post : List Nat) (j i : Nat)
    (hj : j < p.length) (hb : p.getD j 0 < 256) (hi : i < 8)
    (hlen : p.length < 2 ^ 31) :
    (∀ s1 : StorageState, s1.mmaped = none → s1.file = corruptedAt pre p post j i →
      read_block c s1 pre.length = .error (.wrongChecksum, s1)) ∧
    (∀ s2 : StorageState, s2.mmaped = some (corruptedAt pre p post j i) →
      read_block c s2 pre.length = .error (.wrongChecksum, s2)) := by
  have hdl := corruptedAt_length pre p post j i
  have hdd := corruptedAt_drop pre p post j i
  have hcsize : leToNat (natToLE 4 p.length) = p.length := by
    apply leToNat_natToLE
    calc p.length < 2 ^ 31 := hlen
      _ < 256 ^ 4 := by norm_num
  have hstored : leToNat (natToLE 4 (crc32c p)) = crc32c p := by
    apply leToNat_natToLE
    calc crc32c p < 2 ^ 32 := crc32c_lt _
      _ = 256 ^ 4 := by norm_num
  have htake4 : (natToLE 4 p.length ++ natToLE 4 (crc32c p)).take 4 = natToLE 4 p.length :=
    take_append_exact _ _ (by simp [length_natToLE])
  have hdrop4 : (natToLE 4 p.length ++ natToLE 4 (crc32c p)).drop 4
      = natToLE 4 (crc32c p) :=
    drop_append_exact _ _ (by simp [length_natToLE])
  have hne : crc32c (flipBit p j i) ≠ crc32c p := crc32c_flipBit_ne p j i hj hb hi
  constructor
  · intro s1 hm hfile
    have hhdr : freadBytes s1.file pre.length StorageBlockHeaderSize
        = some (natToLE 4 p.length ++ natToLE 4 (crc32c p)) := by
      rw [hfile, freadBytes_of_le (by rw [hdl, StorageBlockHeaderSize_eq]; omega), hdd,
        take_append_exact _ _ (by simp [length_natToLE, StorageBlockHeaderSize_eq])]
    have hpay : freadBytes s1.file (pre.length + StorageBlockHeaderSize) p.length
        = some (flipBit p j i) := by
      rw [hfile, freadBytes_of_le (by rw [hdl, StorageBlockHeaderSize_eq]; omega),
        drop_add, hdd,
        drop_append_exact _ _ (by simp [length_natToLE, StorageBlockHeaderSize_eq]),
        take_append_exact _ _ (length_flipBit p j i).symm]
    unfold read_block
    simp only [hm, hhdr, htake4, hcsize, hpay, hdrop4, hstored]
    rw [if_pos hne]
  · intro s2 hm
    have hlen8 : pre.length + 8 + p.length ≤ (corruptedAt pre p post j i).length := by
      rw [hdl]
      omega
    have hguard : ¬ ((corruptedAt pre p post j i).length ≤ pre.length) := by
      rw [hdl]
      omega
    have hcs : bytesD (corruptedAt pre p post j i) pre.length 4 = natToLE 4 p.length := by
      rw [bytesD_of_le (by omega), hdd, List.append_assoc,
        take_append_exact _ _ (by simp [length_natToLE])]
    have hcrc : bytesD (corruptedAt pre p post j i) (pre.length + 4) 4
        = natToLE 4 (crc32c p) := by
      rw [bytesD_of_le (by omega), drop_add, hdd, List.append_assoc,
        drop_append_exact _ _ (by simp [length_natToLE]),
        take_append_exact _ _ (by simp [length_natToLE])]
    have hpay : bytesD (corruptedAt pre p post j i) (pre.length + StorageBlockHeaderSize)
        p.length = flipBit p j i := by
      rw [bytesD_of_le (by rw [hdl, StorageBlockHeaderSize_eq]; omega), drop_add, hdd,
        drop_append_exact _ _ (by simp [length_natToLE, StorageBlockHeaderSize_eq]),
        take_append_exact _ _ (length_flipBit p j i).symm]
    unfold read_block
    simp only [hm, if_neg hguard, hcs, hcsize, hcrc, hstored, hpay]
    rw [if_pos hne]

/-! ## End of data scenarios -/

/-- A freshly loaded trailing block whose first record has zero length
    signals end of data, and keeps signalling it. -/
theorem read_empty_trailing_block (c : Codec) (s : StorageState)
    (hm : s.mmaped = none) (hst : s.cur_block.status = .BS_INVALID)
    (hdrop : s.file.drop (nextOff s) = diskBlockOf c []) :
    ∃ sE, StorageReadTuple c s = .ok (none, sE) ∧
      StorageReadTuple c sE = .ok (none, sE) := by
  have hload : read_block c s (nextOff s) = .ok (true, loadedState c s [] (nextOff s)) :=
    @read_block_ok c s [] (nextOff s) [] hm (by rw [hdrop]; simp) (by simp [encLen])
  have hmatch : MemMatches (loadedState c s [] (nextOff s)).cur_block.data
      (encodeTuples []) :=
    @writeBytes_blockList_matches s.cur_block.data [] (by simp [encLen])
  have hhdr0 : leToNat (readBytes (loadedState c s [] (nextOff s)).cur_block.data 0
      StorageTupleHeaderSize) = 0 := by
    rw [readBytes_matches hmatch
      (show 0 + StorageTupleHeaderSize ≤ BLOCK_SIZE by
        rw [StorageTupleHeaderSize_eq, BLOCK_SIZE_eq]; omega)]
    apply readBytes_past_encoded
    simp [encodeTuples]
  have hstep1 : StorageReadTuple c s = .ok (none, loadedState c s [] (nextOff s)) := by
    rw [StorageReadTuple_load c s (Or.inl hst),
      readTupleLoad_ok c (by rw [load_next_block_eq]; exact hload)]
    unfold readTupleHeaderAt
    rw [if_pos (by rw [StorageTupleHeaderSize_eq, BLOCK_SIZE_eq]; omega), sres_bind_ok,
      hhdr0, if_pos rfl]
    rfl
  have hcomp := congrArg List.length hdrop
  rw [List.length_drop, length_diskBlockOf] at hcomp
  have hflen : s.file.length
      = nextOff s + StorageBlockHeaderSize + (c.comp (blockList [])).length := by
    rw [StorageBlockHeaderSize_eq] at hcomp ⊢
    omega
  have hnoE : nextOff (loadedState c s [] (nextOff s))
      = nextOff s + StorageBlockHeaderSize + (c.comp (blockList [])).length := by
    unfold nextOff
    rw [if_neg (by simp [loadedState])]
    rfl
  have htrigE : LoadTrigger (loadedState c s [] (nextOff s)) := by
    refine Or.inr ⟨?_, ?_⟩
    · show 0 + StorageTupleHeaderSize ≤ BLOCK_SIZE
      rw [StorageTupleHeaderSize_eq, BLOCK_SIZE_eq]
      omega
    · exact hhdr0
  have hstep2 : StorageReadTuple c (loadedState c s [] (nextOff s))
      = .ok (none, loadedState c s [] (nextOff s)) := by
    rw [StorageReadTuple_load c _ htrigE]
    apply readTupleLoad_fail c _ (show (loadedState c s [] (nextOff s)).mmaped = none from hm)
    rw [hnoE]
    show s.file.length ≤ _
    rw [hflen]
  exact ⟨loadedState c s [] (nextOff s), hstep1, hstep2⟩

theorem scanRows_err_of (c : Codec) {d : List Nat} {um : Bool} {n : Nat}
    {s : StorageState} {e : StorageError × StorageState}
    (hinit : StorageInit d true um = .ok s) (hread : readTuples c s n = .error e) :
    scanRows c d um n = .error e.1 := by
  unfold scanRows
  simp only [hinit, hread]

/-! ## The out-of-bounds header read on an exactly full block -/

/-- Reading twice from a block filled to exactly `BLOCK_SIZE` dereferences
    the tuple header at offset `BLOCK_SIZE`, past the block buffer. -/
theorem readTuples_two_oob (c : Codec) {s : StorageState} {t : List Nat}
    (hm : s.mmaped = none) (hst : s.cur_block.status = .BS_INVALID)
    (hdrop : s.file.drop (nextOff s) = diskBlockOf c [t])
    (ht : tlen t = BLOCK_SIZE) (hne : t ≠ []) :
    ∃ s1, readTuples c s 2 = .error (.oobRead, s1) := by
  have hlen1 : encLen [t] ≤ BLOCK_SIZE := by
    rw [encLen_singleton, ht]
  have hstep1 := StorageReadTuple_load_first c hm (Or.inl hst)
    (show s.file.drop (nextOff s) = diskBlockOf c [t] ++ [] by rw [hdrop]; simp)
    hlen1 hne
  have hoff1 : ({ loadedState c s [t] (nextOff s) with
      cur_offset := encLen [t] }).cur_offset = BLOCK_SIZE := by
    show encLen [t] = BLOCK_SIZE
    rw [encLen_singleton, ht]
  have hstep2 : StorageReadTuple c
      ({ loadedState c s [t] (nextOff s) with cur_offset := encLen [t] })
      = .error (.oobRead,
          { loadedState c s [t] (nextOff s) with cur_offset := encLen [t] }) := by
    unfold StorageReadTuple
    rw [if_neg (by
      push_neg
      refine ⟨by simp [loadedState], ?_⟩
      rw [hoff1])]
    unfold readTupleHeaderAt
    rw [hoff1, if_neg (by rw [StorageTupleHeaderSize_eq, BLOCK_SIZE_eq]; omega),
      sres_bind_err]
  refine ⟨{ loadedState c s [t] (nextOff s) with cur_offset := encLen [t] }, ?_⟩
  rw [show (2 : Nat) = 1 + 1 from rfl, readTuples_succ_some c hstep1,
    readTuples_succ_err c hstep2 0, sres_bind_err]

/-! ## find_last_tuple_offset versus the insert cursor -/

/-- Inserting nonempty rows from a fresh file keeps `find_last_tuple_offset`
    consistent with the insert cursor. -/
theorem insert_find_consistent (c : Codec) (ts : List (List Nat))
    (hne : ∀ t ∈ ts, t ≠ []) (hfit : ∀ t ∈ ts, tlen t ≤ BLOCK_SIZE)
    (hsum : encLen ts ≤ BLOCK_SIZE) (hts : ts ≠ []) :
    ∃ s1, insertTuples c freshState ts = .ok s1 ∧
      s1.cur_offset = encLen ts ∧
      find_last_tuple_offset s1.cur_block.data 0 = s1.cur_offset := by
  obtain ⟨u, us, rfl⟩ := List.exists_cons_of_ne_nil hts
  obtain ⟨sA, hA, invA⟩ := insert_first c u (hfit u (by simp))
  obtain ⟨s1, h1, inv1⟩ := insertTuples_WInv c us invA (fun v hv => hfit v (by simp [hv]))
  have hp := packGo_single us [u] (by
    rw [show ([u] ++ us : List (List Nat)) = u :: us from rfl]
    exact hsum)
  rw [hp] at inv1
  have inv1 : WInv c [] (u :: us) s1 := by simpa using inv1
  have hfull1 : insertTuples c freshState (u :: us) = .ok s1 := by
    show Bind.bind (StorageInsertTuple c freshState u) (fun s => insertTuples c s us)
      = .ok s1
    rw [hA, sres_bind_ok]
    exact h1
  refine ⟨s1, hfull1, inv1.hcur, ?_⟩
  rw [inv1.hdata, inv1.hcur]
  have hfind := find_last_tuple_offset_encoded (u :: us) [] hne hfit (by
    rw [encLen_nil]
    omega)
  simpa [encLen_nil] using hfind

/-- Inserting a zero-length tuple advances the cursor by the tuple-header
    size but stores a zero length header, which `find_last_tuple_offset`
    takes for the end sentinel. -/
theorem insert_empty_tuple_mismatch (c : Codec) :
    ∃ s1, StorageInsertTuple c freshState [] = .ok s1 ∧
      s1.cur_offset = StorageTupleHeaderSize ∧
      find_last_tuple_offset s1.cur_block.data 0 = 0 := by
  obtain ⟨s1, h1, inv⟩ := insert_first c [] (by decide)
  refine ⟨s1, h1, ?_, ?_⟩
  · rw [inv.hcur]
    decide
  · rw [inv.hdata]
    have he : encodeTuples [[]] = List.replicate 8 0 := by decide
    rw [he]
    unfold find_last_tuple_offset
    rw [dif_pos (by norm_num [BLOCK_SIZE])]
    rw [show leToNat (readBytes (memOfList (List.replicate 8 0)) 0 StorageTupleHeaderSize)
        = 0 by decide]
    simp

/-! ## The FDW option validator, translated from `src/tuple_fdw.c` -/

/-- Error outcomes of option validation and of planning-time option
    extraction (each an `elog(ERROR)` / `ereport(ERROR)` abort). -/
inductive FdwError
  | unknownOption (name : String)
  | filenameRequired
  | notBoolean (name : String)
  | invalidAttribute (name : String)
deriving DecidableEq, Repr

/-- PostgreSQL's `defGetBoolean`, which `tuple_fdw` calls on the `use_mmap`
    option; not part of this repository, modelled from its documented
    behaviour: the usual boolean spellings are accepted, anything else
    raises "requires a Boolean value".  (The host also accepts case
    variants and prefixes; the model keeps the canonical spellings, which
    is enough for values no variant accepts.) -/
def defGetBoolean (name value : String) : Except FdwError Bool :=
  if value = "true" ∨ value = "yes" ∨ value = "on" ∨ value = "1" then .ok true
  else if value = "false" ∨ value = "no" ∨ value = "off" ∨ value = "0" then .ok false
  else .error (.notBoolean name)

/-- The option-list walk of `tuple_fdw_validator`, over (name, value)
    pairs; `fp` records whether `filename` has been seen. -/
def validatorGo : List (String × String) → Bool → Except FdwError Unit
  | [], fp => if fp then .ok () else .error .filenameRequired
  | (n, v) :: rest, fp =>
    if n = "filename" then validatorGo rest true
    else if n = "sorted" then validatorGo rest fp
    else if n = "use_mmap" then
      match defGetBoolean n v with
      | .error e => .error e
      | .ok _ => validatorGo rest fp
    else if n = "lz4_acceleration" then validatorGo rest fp
    else .error (.unknownOption n)

/-- tuple_fdw_validator over the foreign table's option list. -/
def tuple_fdw_validator (opts : List (String × String)) : Except FdwError Unit :=
  validatorGo opts false

/-- PostgreSQL's `get_attnum`, not part of this repository, modelled over
    the table's column-name list: a positive attribute number for a column,
    0 (`InvalidAttrNumber`) when the name is not a column. -/
def get_attnum (cols : List String) (name : String) : Nat :=
  if name ∈ cols then cols.indexOf name + 1 else 0

/-- parse_attributes_list over the already space-split token list of the
    `sorted` option: each token must name a column, otherwise an
    invalid-attribute error is raised (at planning time, when
    `extract_table_options` runs). -/
def parse_attributes_list (cols : List String) : List String → Except FdwError (List Nat)
  | [] => .ok []
  | tok :: rest =>
    if get_attnum cols tok = 0 then .error (.invalidAttribute tok)
    else
      match parse_attributes_list cols rest with
      | .error e => .error e
      | .ok l => .ok (get_attnum cols tok :: l)

/-- Whether a value is accepted by the modelled `defGetBoolean`. -/
def isBool (v : String) : Bool :=
  v = "true" ∨ v = "yes" ∨ v = "on" ∨ v = "1" ∨
    v = "false" ∨ v = "no" ∨ v = "off" ∨ v = "0"

theorem defGetBoolean_ok_iff (n v : String) :
    (∃ b, defGetBoolean n v = .ok b) ↔ isBool v = true := by
  unfold defGetBoolean isBool
  by_cases h1 : v = "true" ∨ v = "yes" ∨ v = "on" ∨ v = "1"
  · rw [if_pos h1]
    simp [h1]
    tauto
  · rw [if_neg h1]
    by_cases h2 : v = "false" ∨ v = "no" ∨ v = "off" ∨ v = "0"
    · rw [if_pos h2]
      simp
      tauto
    · rw [if_neg h2]
      simp
      push_neg at h1 h2
      simp [h1.1, h1.2.1, h1.2.2.1, h1.2.2.2, h2.1, h2.2.1, h2.2.2.1, h2.2.2.2]

/-- Success characterization of the validator walk. -/
theorem validatorGo_ok_iff (opts : List (String × String)) :
    ∀ fp : Bool, validatorGo opts fp = .ok () ↔
      ((∀ p ∈ opts,
          p.1 = "filename" ∨ p.1 = "sorted" ∨ p.1 = "use_mmap"
            ∨ p.1 = "lz4_acceleration") ∧
       (fp = true ∨ ∃ p ∈ opts, p.1 = "filename") ∧
       (∀ p ∈ opts, p.1 = "use_mmap" → isBool p.2 = true)) := by
  induction opts with
  | nil =>
    intro fp
    cases fp with
    | false => simp [validatorGo]
    | true => simp [validatorGo]
  | cons q rest ih =>
    intro fp
    obtain ⟨n, v⟩ := q
    unfold validatorGo
    by_cases hf : n = "filename"
    · rw [if_pos hf, ih true]
      subst hf
      simp
    · rw [if_neg hf]
      by_cases hs : n = "sorted"
      · rw [if_pos hs, ih fp]
        subst hs
        simp [hf]
      · rw [if_neg hs]
        by_cases hu : n = "use_mmap"
        · rw [if_pos hu]
          subst hu
          cases hbool : defGetBoolean "use_mmap" v with
          | error e =>
            simp only []
            have hnb : ¬ (isBool v = true) := by
              intro hc
              obtain ⟨b, hb⟩ := (defGetBoolean_ok_iff "use_mmap" v).mpr hc
              rw [hbool] at hb
              cases hb
            constructor
            · intro hc
              cases hc
            · intro ⟨_, _, h3⟩
              exact absurd (h3 ("use_mmap", v) (by simp) rfl) hnb
          | ok b =>
            simp only []
            rw [ih fp]
            have hbv : isBool v = true :=
              (defGetBoolean_ok_iff "use_mmap" v).mp ⟨b, hbool⟩
            simp [hf, hs, hbv]
        · rw [if_neg hu]
          by_cases hl : n = "lz4_acceleration"
          · rw [if_pos hl, ih fp]
            subst hl
            simp [hf, hs, hu]
          · rw [if_neg hl]
            constructor
            · intro hc
              cases hc
            · intro ⟨h1, _, _⟩
              rcases h1 (n, v) (by simp) with h | h | h | h
              · exact absurd h hf
              · exact absurd h hs
              · exact absurd h hu
              · exact absurd h hl

theorem get_attnum_eq_zero_iff (cols : List String) (name : String) :
    get_attnum cols name = 0 ↔ ¬ name ∈ cols := by
  unfold get_attnum
  by_cases h : name ∈ cols
  · rw [if_pos h]
    simp [h]
  · rw [if_neg h]
    simp [h]

/-- An invalid column name in the `sorted` token list always aborts
    planning-time option extraction. -/
theorem parse_attributes_list_err (cols : List String) :
    ∀ toks : List String, (∃ t ∈ toks, ¬ t ∈ cols) →
      ∃ bad, ¬ bad ∈ cols ∧
        parse_attributes_list cols toks = .error (.invalidAttribute bad) := by
  intro toks
  induction toks with
  | nil =>
    intro h
    simp at h
  | cons tok rest ih =>
    intro h
    by_cases ht : get_attnum cols tok = 0
    · refine ⟨tok, (get_attnum_eq_zero_iff cols tok).mp ht, ?_⟩
      unfold parse_attributes_list
      rw [if_pos ht]
    · have htm : tok ∈ cols := by
        by_contra hc
        exact ht ((get_attnum_eq_zero_iff cols tok).mpr hc)
      obtain ⟨t, htk, htc⟩ := h
      rcases List.mem_cons.mp htk with rfl | hrest
      · exact absurd htm htc
      · obtain ⟨bad, hbad, herr⟩ := ih ⟨t, hrest, htc⟩
        refine ⟨bad, hbad, ?_⟩
        unfold parse_attributes_list
        rw [if_neg ht, herr]

/-! ## Claim theorems -/

/-- C1: Corrected round trip: for nonempty rows each fitting a block, with
    no block packed exactly full, inserting them all and then reading from
    a fresh buffered handle on the same file returns the rows in order —
    each zero-padded to its MAXALIGN length, not byte for byte. -/
theorem C1_round_trip_padded (c : Codec) (ts : List (List Nat))
    (hne : ∀ t ∈ ts, t ≠ [])
    (hfit : ∀ t ∈ ts, tlen t ≤ BLOCK_SIZE)
    (hfull : ∀ b ∈ packAll ts, encLen b + StorageTupleHeaderSize ≤ BLOCK_SIZE) :
    ∀ k, ∃ sEnd, writeThenRead c ts (ts.length + k) = .ok (ts.map padRow, sEnd) :=
  writeThenRead_rows c ts hne hfit hfull

/-- Witness for C1 at `ts = [[42]]`: the row comes back zero-padded. -/
theorem C1_round_trip_padded_witness :
    ∃ sEnd, writeThenRead idCodec [[42]] 1 = .ok ([[42, 0, 0, 0, 0, 0, 0, 0]], sEnd) := by
  have h := C1_round_trip_padded idCodec [[42]] (by decide) (by decide) (by decide) 0
  have he : ([[42]] : List (List Nat)).map padRow = [[42, 0, 0, 0, 0, 0, 0, 0]] := by decide
  rw [show List.length [[42]] + 0 = 1 from rfl, he] at h
  exact h

/-- Counterexample to C1 as stated: the inserted row `[42]` is returned as
    its 8-byte padded form, which differs byte for byte from the input. -/
theorem C1_round_trip_counterexample :
    ∃ sEnd, writeThenRead idCodec [[42]] 1 = .ok ([[42, 0, 0, 0, 0, 0, 0, 0]], sEnd)
      ∧ [[42, 0, 0, 0, 0, 0, 0, 0]] ≠ [[42]] := by
  have h := writeThenRead_rows idCodec [[42]] (by decide) (by decide) (by decide) 0
  have he : ([[42]] : List (List Nat)).map padRow = [[42, 0, 0, 0, 0, 0, 0, 0]] := by decide
  rw [show List.length [[42]] + 0 = 1 from rfl, he] at h
  obtain ⟨sEnd, hEnd⟩ := h
  exact ⟨sEnd, hEnd, by decide⟩

/-- C2: A tuple whose MAXALIGN-padded total size exceeds BLOCK_SIZE is
    rejected with the max-tuple-size error before anything is touched: the
    state at the abort — including the backing file — is the input state. -/
theorem C2_oversized_tuple_rejected (c : Codec) (s : StorageState) (t : List Nat)
    (h : BLOCK_SIZE < MAXALIGN (t.length + StorageTupleHeaderSize)) :
    StorageInsertTuple c s t = .error (.maxTupleSize, s) := by
  unfold StorageInsertTuple
  rw [if_pos h]

/-- Witness for C2 at a `BLOCK_SIZE`-byte tuple. -/
theorem C2_oversized_tuple_rejected_witness :
    StorageInsertTuple idCodec freshState (List.replicate 1048576 1)
      = .error (.maxTupleSize, freshState) :=
  C2_oversized_tuple_rejected idCodec freshState (List.replicate 1048576 1) (by
    rw [List.length_replicate]
    decide)

/-- C3: read_block checksums exactly the compressed payload bytes against
    the stored checksum on both the buffered and the mmap path, and any
    single flipped payload bit makes the read fail with the fatal
    wrong-checksum corruption error instead of returning data. -/
theorem C3_checksum_mismatch_fatal (c : Codec) (pre p post : List Nat) (j i : Nat)
    (hj : j < p.length) (hb : p.getD j 0 < 256) (hi : i < 8)
    (hlen : p.length < 2 ^ 31) :
    (∀ s1 : StorageState, s1.mmaped = none → s1.file = corruptedAt pre p post j i →
      read_block c s1 pre.length = .error (.wrongChecksum, s1)) ∧
    (∀ s2 : StorageState, s2.mmaped = some (corruptedAt pre p post j i) →
      read_block c s2 pre.length = .error (.wrongChecksum, s2)) :=
  read_block_corrupted c pre p post j i hj hb hi hlen

/-- Witness for C3 at a one-byte payload with its lowest bit flipped. -/
theorem C3_checksum_mismatch_fatal_witness :
    read_block idCodec { freshState with file := corruptedAt [] [7] [] 0 0 } 0
      = .error (.wrongChecksum, { freshState with file := corruptedAt [] [7] [] 0 0 }) := by
  have h := (C3_checksum_mismatch_fatal idCodec [] [7] [] 0 0 (by decide) (by decide)
    (by decide) (by decide)).1
    { freshState with file := corruptedAt [] [7] [] 0 0 } rfl rfl
  simpa using h

/-- C4: rows whose padded sizes sum to exactly BLOCK_SIZE all stay in the
    first block, placed right after the file header with nothing flushed;
    the next insert of a positive-size row flushes it and allocates a block
    at the prior offset plus block-header size plus compressed size. -/
theorem C4_exact_fill_and_rollover (c : Codec) (u : List Nat) (us : List (List Nat))
    (t : List Nat)
    (hfit : ∀ v ∈ u :: us, tlen v ≤ BLOCK_SIZE)
    (hsum : encLen (u :: us) = BLOCK_SIZE)
    (ht : tlen t ≤ BLOCK_SIZE) :
    ∃ s1, insertTuples c freshState (u :: us) = .ok s1 ∧
      s1.file = natToLE 8 StorageFileHeaderSize ∧
      s1.cur_block.offset = StorageFileHeaderSize ∧
      s1.cur_offset = BLOCK_SIZE ∧
      ∃ s2, StorageInsertTuple c s1 t = .ok s2 ∧
        s2.cur_block.offset = s1.cur_block.offset + StorageBlockHeaderSize
          + (c.comp (readBytes s1.cur_block.data 0 BLOCK_SIZE)).length ∧
        s2.cur_offset = tlen t :=
  insert_exact_fill_roll c u us t hfit hsum ht

/-- Witness for C4: one row filling the block exactly, then `[1]`. -/
theorem C4_exact_fill_and_rollover_witness :
    ∃ s1, insertTuples idCodec freshState [List.replicate 1048568 0] = .ok s1 ∧
      s1.file = natToLE 8 StorageFileHeaderSize ∧
      s1.cur_block.offset = StorageFileHeaderSize ∧
      s1.cur_offset = BLOCK_SIZE ∧
      ∃ s2, StorageInsertTuple idCodec s1 [1] = .ok s2 ∧
        s2.cur_block.offset = s1.cur_block.offset + StorageBlockHeaderSize
          + (idCodec.comp (readBytes s1.cur_block.data 0 BLOCK_SIZE)).length ∧
        s2.cur_offset = tlen [1] :=
  C4_exact_fill_and_rollover idCodec (List.replicate 1048568 0) [] [1]
    (by
      intro v hv
      rw [List.mem_singleton] at hv
      subst hv
      unfold tlen
      rw [List.length_replicate]
      decide)
    (by
      rw [encLen_singleton]
      unfold tlen
      rw [List.length_replicate]
      decide)
    (by decide)

/-- C5: a failed next-block load signals end of data with the state
    unchanged; a freshly loaded trailing block whose first record has zero
    length signals end of data; and a state that signals end of data
    without changing keeps signalling it on every further read. -/
theorem C5_end_of_data_stable (c : Codec) :
    (∀ s : StorageState, s.mmaped = none → LoadTrigger s →
      s.file.length ≤ nextOff s → StorageReadTuple c s = .ok (none, s)) ∧
    (∀ s : StorageState, s.mmaped = none → s.cur_block.status = .BS_INVALID →
      s.file.drop (nextOff s) = diskBlockOf c [] →
      ∃ sE, StorageReadTuple c s = .ok (none, sE) ∧
        StorageReadTuple c sE = .ok (none, sE)) ∧
    (∀ s : StorageState, StorageReadTuple c s = .ok (none, s) →
      ∀ n, readTuples c s n = .ok ([], s)) := by
  refine ⟨?_, ?_, ?_⟩
  · intro s hm htrig hend
    rw [StorageReadTuple_load c s htrig]
    exact readTupleLoad_fail c s hm hend
  · intro s hm hst hdrop
    exact read_empty_trailing_block c s hm hst hdrop
  · intro s h n
    exact readTuples_none c h n

/-- Witness for C5 on a fresh handle over a header-only file. -/
theorem C5_end_of_data_stable_witness :
    StorageReadTuple idCodec freshState = .ok (none, freshState) ∧
    readTuples idCodec freshState 3 = .ok ([], freshState) := by
  have h1 := (C5_end_of_data_stable idCodec).1 freshState rfl (Or.inl rfl) (by decide)
  exact ⟨h1, (C5_end_of_data_stable idCodec).2.2 freshState h1 3⟩

/-- C6: flushing a `BS_LOADED` block is a no-op, and a read-only scan from
    a clean handle never changes the file and releases without writing. -/
theorem C6_loaded_blocks_never_rewritten (c : Codec) :
    (∀ s : StorageState, s.cur_block.status = .BS_LOADED →
      flush_last_block c s = .ok s) ∧
    (∀ (s : StorageState) (n : Nat) (r : List (List Nat) × StorageState),
      (s.cur_block.status = .BS_INVALID ∨ s.cur_block.status = .BS_LOADED) →
      readTuples c s n = .ok r →
      r.2.file = s.file ∧ StorageRelease c r.2 = .ok r.2) := by
  refine ⟨?_, ?_⟩
  · intro s h
    unfold flush_last_block
    rw [if_pos h]
  · intro s n r hs hr
    have hf := readTuples_frame c n s r hr
    refine ⟨hf.1, ?_⟩
    have hst : r.2.cur_block.status = .BS_INVALID ∨ r.2.cur_block.status = .BS_LOADED := by
      rcases hf.2.2 with h1 | h1
      · rw [h1]
        exact hs
      · exact Or.inr h1
    unfold StorageRelease
    rw [if_neg (by
      intro hc
      rcases hst with h1 | h1 <;> rcases hc with h2 | h2 <;> rw [h1] at h2 <;> cases h2)]

/-- Witness for C6 on a fresh handle. -/
theorem C6_loaded_blocks_never_rewritten_witness :
    freshState.file = freshState.file ∧
    StorageRelease idCodec freshState = .ok freshState :=
  (C6_loaded_blocks_never_rewritten idCodec).2 freshState 0 ([], freshState)
    (Or.inl rfl) rfl

/-- C7: contrary to the claim, when the cursor sits exactly at BLOCK_SIZE
    the engine does not load the next block: the tuple-header dereference
    happens at offset BLOCK_SIZE, 8 bytes past the block buffer (the
    `cur_offset > BLOCK_SIZE` test misses the boundary case), so a second
    read on a block filled to exactly BLOCK_SIZE faults. -/
theorem C7_header_read_past_block (c : Codec) (t : List Nat)
    (ht : tlen t = BLOCK_SIZE) (hne : t ≠ []) :
    scanRows c (natToLE 8 StorageFileHeaderSize ++ diskBlockOf c [t]) false 2
      = .error .oobRead := by
  have hd0 : ¬ ((natToLE 8 StorageFileHeaderSize ++ diskBlockOf c [t]).length = 0) := by
    simp [length_natToLE]
  obtain ⟨s1, h2⟩ := @readTuples_two_oob c
    { file := natToLE 8 StorageFileHeaderSize ++ diskBlockOf c [t], readonly := true,
      mmaped := none,
      last_block_offset := leToNat
        (bytesD (natToLE 8 StorageFileHeaderSize ++ diskBlockOf c [t]) 0 8),
      cur_block := Block.mk .BS_INVALID 0 0 memZero, cur_offset := 0 }
    t rfl rfl
    (by
      show (natToLE 8 StorageFileHeaderSize ++ diskBlockOf c [t]).drop StorageFileHeaderSize
        = diskBlockOf c [t]
      exact drop_append_exact _ _ (by rw [length_natToLE, StorageFileHeaderSize_eq]))
    ht hne
  exact scanRows_err_of c (StorageInit_read _ hd0) h2

/-- Witness for C7 at a tuple whose record fills the block exactly. -/
theorem C7_header_read_past_block_witness :
    scanRows idCodec (natToLE 8 StorageFileHeaderSize
        ++ diskBlockOf idCodec [List.replicate 1048568 1]) false 2
      = .error .oobRead :=
  C7_header_read_past_block idCodec (List.replicate 1048568 1)
    (by
      unfold tlen
      rw [List.length_replicate]
      decide)
    (by
      intro hc
      have h2 := congrArg List.length hc
      rw [List.length_replicate] at h2
      exact absurd h2 (by decide))

/-- C8: corrected equivalence: on every file the writer produces from
    nonempty rows (no block exactly full), the memory-mapped and the
    buffered scan return identical row sequences with the same end-of-data
    point; the empty just-created backing file must be excluded, because
    there the two paths differ (see the counterexample). -/
theorem C8_mmap_buffered_equivalent (c : Codec) (ts : List (List Nat))
    (hne : ∀ t ∈ ts, t ≠ [])
    (hfit : ∀ t ∈ ts, tlen t ≤ BLOCK_SIZE)
    (hfull : ∀ b ∈ packAll ts, encLen b + StorageTupleHeaderSize ≤ BLOCK_SIZE) :
    ∃ sR, writeFile c ts = .ok sR ∧
      ∀ k, scanRows c sR.file true (ts.length + k)
          = scanRows c sR.file false (ts.length + k) ∧
        scanRows c sR.file false (ts.length + k) = .ok (ts.map padRow) := by
  obtain ⟨sR, hW, hfile⟩ := writeFile_disk c ts hfit
  refine ⟨sR, hW, fun k => ?_⟩
  have h1 := scanRows_writer c ts hne hfit hfull true k
  have h2 := scanRows_writer c ts hne hfit hfull false k
  rw [← hfile] at h1 h2
  exact ⟨h1.trans h2.symm, h2⟩

/-- Witness for C8 at `ts = [[42]]`. -/
theorem C8_mmap_buffered_equivalent_witness :
    ∃ sR, writeFile idCodec [[42]] = .ok sR ∧
      scanRows idCodec sR.file true 1 = scanRows idCodec sR.file false 1 ∧
      scanRows idCodec sR.file false 1 = .ok [[42, 0, 0, 0, 0, 0, 0, 0]] := by
  obtain ⟨sR, hW, hk⟩ := C8_mmap_buffered_equivalent idCodec [[42]]
    (by decide) (by decide) (by decide)
  have h := hk 0
  have he : ([[42]] : List (List Nat)).map padRow = [[42, 0, 0, 0, 0, 0, 0, 0]] := by decide
  rw [show List.length [[42]] + 0 = 1 from rfl, he] at h
  exact ⟨sR, hW, h⟩

/-- Counterexample to C8 as stated: on an empty just-created backing file
    the mmap path fails at init (mmap of a zero-length file) while the
    buffered path succeeds and reports no rows. -/
theorem C8_empty_file_counterexample :
    scanRows idCodec [] true 1 = .error .mmapFailed ∧
    scanRows idCodec [] false 1 = .ok [] :=
  ⟨rfl, rfl⟩

/-- C9: corrected: validation fails not exactly when `filename` is absent
    or an option name is unknown — a known `use_mmap` option with a
    non-boolean value also fails; success requires all names known,
    `filename` present, and boolean `use_mmap` values.  A `sorted` token
    naming no column aborts planning-time option extraction. -/
theorem C9_validator_characterization :
    (∀ opts : List (String × String),
      tuple_fdw_validator opts = .ok () ↔
        ((∀ p ∈ opts, p.1 = "filename" ∨ p.1 = "sorted" ∨ p.1 = "use_mmap"
            ∨ p.1 = "lz4_acceleration") ∧
         (∃ p ∈ opts, p.1 = "filename") ∧
         (∀ p ∈ opts, p.1 = "use_mmap" → isBool p.2 = true))) ∧
    (∀ (cols : List String) (toks : List String), (∃ t ∈ toks, ¬ t ∈ cols) →
      ∃ bad, ¬ bad ∈ cols ∧
        parse_attributes_list cols toks = .error (.invalidAttribute bad)) := by
  constructor
  · intro opts
    show validatorGo opts false = .ok () ↔ _
    rw [validatorGo_ok_iff opts false]
    simp
  · exact parse_attributes_list_err

/-- Witness for C9: a minimal valid option list, and a bad `sorted` token. -/
theorem C9_validator_characterization_witness :
    tuple_fdw_validator [("filename", "f")] = .ok () ∧
    (∃ bad, ¬ bad ∈ (["a", "b"] : List String) ∧
      parse_attributes_list ["a", "b"] ["a", "z"] = .error (.invalidAttribute bad)) := by
  constructor
  · exact (C9_validator_characterization.1 [("filename", "f")]).mpr (by decide)
  · exact C9_validator_characterization.2 ["a", "b"] ["a", "z"] ⟨"z", by decide, by decide⟩

/-- Counterexample to C9 as stated: every option name is known and
    `filename` is present, yet validation fails, because the `use_mmap`
    value is not boolean. -/
theorem C9_use_mmap_counterexample :
    (∀ p ∈ ([("filename", "f"), ("use_mmap", "banana")] : List (String × String)),
      p.1 = "filename" ∨ p.1 = "sorted" ∨ p.1 = "use_mmap"
        ∨ p.1 = "lz4_acceleration") ∧
    (∃ p ∈ ([("filename", "f"), ("use_mmap", "banana")] : List (String × String)),
      p.1 = "filename") ∧
    tuple_fdw_validator [("filename", "f"), ("use_mmap", "banana")]
      = .error (.notBoolean "use_mmap") := by
  refine ⟨by decide, by decide, rfl⟩

/-- C10: corrected: for nonempty tuples the find-offset scan lands exactly
    on the insert cursor (and MAXALIGN(t_len) + 8 = MAXALIGN(t_len + 8)
    holds for every length), but a zero-length tuple stores a zero length
    header that collides with the scan's end sentinel (counterexample). -/
theorem C10_find_last_offset_consistent (c : Codec) (ts : List (List Nat))
    (hne : ∀ t ∈ ts, t ≠ []) (hfit : ∀ t ∈ ts, tlen t ≤ BLOCK_SIZE)
    (hsum : encLen ts ≤ BLOCK_SIZE) (hts : ts ≠ []) :
    (∀ n : Nat, MAXALIGN n + StorageTupleHeaderSize
        = MAXALIGN (n + StorageTupleHeaderSize)) ∧
    ∃ s1, insertTuples c freshState ts = .ok s1 ∧
      s1.cur_offset = encLen ts ∧
      find_last_tuple_offset s1.cur_block.data 0 = s1.cur_offset := by
  refine ⟨?_, insert_find_consistent c ts hne hfit hsum hts⟩
  intro n
  rw [StorageTupleHeaderSize_eq]
  exact (MAXALIGN_add_8 n).symm

/-- Witness for C10 at `ts = [[1]]`. -/
theorem C10_find_last_offset_consistent_witness :
    ∃ s1, insertTuples idCodec freshState [[1]] = .ok s1 ∧
      s1.cur_offset = encLen [[1]] ∧
      find_last_tuple_offset s1.cur_block.data 0 = s1.cur_offset :=
  (C10_find_last_offset_consistent idCodec [[1]] (by decide) (by decide) (by decide)
    (by decide)).2

/-- Counterexample to C10 as stated: after inserting one zero-length tuple
    the cursor stands at the tuple-header size, but the find-offset scan
    reports 0 — reopening for append would overwrite the stored record. -/
theorem C10_zero_length_counterexample :
    ∃ s1, StorageInsertTuple idCodec freshState [] = .ok s1 ∧
      s1.cur_offset = StorageTupleHeaderSize ∧
      find_last_tuple_offset s1.cur_block.data 0 ≠ s1.cur_offset := by
  obtain ⟨s1, h1, hcur, hfind⟩ := insert_empty_tuple_mismatch idCodec
  exact ⟨s1, h1, hcur, by rw [hfind, hcur]; decide⟩
